import Mathlib

/-!
# stockmonthlydata

A shallow embedding of `main.go` and `config/config.go` of
`tora0091/stockmonthlydata`, with the library calls the program makes
(`time`, `fmt.Sprintf`, `strconv.ParseBool`, `encoding/json`, the AWS SDK)
modelled next to it, and the properties of the program proved over it.
-/

namespace StockMonthlyData

/-! ## package time

A `time.Time` in the location `time.Local` is kept as its civil reading: the
month it falls in, counted from January of year 0, and the nanoseconds elapsed
since local midnight on the 1st of that month.  `time.Local` is taken to be a
zone with a fixed offset (UTC on AWS Lambda), so the order of instants is the
lexicographic order of their civil readings. -/

/-- Gregorian leap year rule. -/
def isLeap (year : Int) : Bool :=
  year % 4 == 0 && (year % 100 != 0 || year % 400 == 0)

/-- Number of days of month `month` (1 = January .. 12 = December) of `year`. -/
def daysIn (year : Int) (month : Int) : Nat :=
  if month = 2 then (if isLeap year then 29 else 28)
  else if month = 4 ∨ month = 6 ∨ month = 9 ∨ month = 11 then 30
  else 31

/-- Nanoseconds in a civil day. -/
def nanosPerDay : Nat := 86400 * 1000000000

/-- Length in nanoseconds of the month with index `idx` (`12 * year + (month - 1)`). -/
def monthNanos (idx : Int) : Nat :=
  daysIn (idx / 12) (idx % 12 + 1) * nanosPerDay

/-- A `time.Time` value in `time.Local`. -/
structure Time where
  /-- `12 * year + (month - 1)`. -/
  monthIndex : Int
  /-- Nanoseconds since local midnight on the 1st of the month. -/
  offset : Nat
deriving DecidableEq, Repr

/-- `t.Year()`. -/
def Time.Year (t : Time) : Int := t.monthIndex / 12

/-- `int(t.Month())`, 1 for January up to 12 for December. -/
def Time.Month (t : Time) : Int := t.monthIndex % 12 + 1

/-- `t.Before(u)`: the instant `t` is strictly earlier than `u`. -/
def Time.Before (t u : Time) : Bool :=
  decide (t.monthIndex < u.monthIndex) ||
    (decide (t.monthIndex = u.monthIndex) && decide (t.offset < u.offset))

/-- Normalisation done by `time.Date`: an offset outside the month `idx`
is carried into the neighbouring months ("October 32 converts to November 1"). -/
def Time.carry : Nat → Int → Int → Time
  | 0, idx, off => ⟨idx, off.toNat⟩
  | fuel + 1, idx, off =>
    if off < 0 then Time.carry fuel (idx - 1) (off + monthNanos (idx - 1))
    else if (monthNanos idx : Int) ≤ off then Time.carry fuel (idx + 1) (off - monthNanos idx)
    else ⟨idx, off.toNat⟩

/-- An offset of `off` nanoseconds away from a month start is carried in at most
this many steps, each month being at least 28 days long. -/
def Time.carryFuel (off : Int) : Nat := off.natAbs / (28 * nanosPerDay) + 1

/-- `time.Date(year, month, day, hour, min, sec, nsec, time.Local)`; values
outside their usual ranges are normalised. -/
def Time.Date (year month day hour min sec nsec : Int) : Time :=
  let off := ((day - 1) * 86400 + hour * 3600 + min * 60 + sec) * 1000000000 + nsec
  Time.carry (Time.carryFuel off) (12 * year + (month - 1)) off

/-- `t.AddDate(years, months, days)`, which is
`Date(year+years, month+months, day+days, hour, min, sec, nsec, loc)` on the
date and clock of `t`. -/
def Time.AddDate (t : Time) (years months days : Int) : Time :=
  let off : Int := (t.offset : Int) + days * nanosPerDay
  Time.carry (Time.carryFuel off) (t.monthIndex + 12 * years + months) off

/-! ## Go strings and byte slices

A Go `string` and a `[]byte` are both sequences of bytes; `string(data)` and
`[]byte(s)` copy the bytes unchanged. -/

/-- A Go `[]byte`. -/
abbrev Bytes := List UInt8

/-- A Go `string`: an immutable sequence of bytes, UTF-8 by convention only. -/
abbrev GoString := List UInt8

/-- `utf8.EncodeRune`: the UTF-8 encoding of code point `r`; a surrogate or a value
above U+10FFFF is encoded as U+FFFD. -/
def encodeRune (r : Nat) : Bytes :=
  if r < 0x80 then [r.toUInt8]
  else if r < 0x800 then [(0xC0 + r / 64).toUInt8, (0x80 + r % 64).toUInt8]
  else if (0xD800 ≤ r ∧ r < 0xE000) ∨ 0x10FFFF < r then [0xEF, 0xBF, 0xBD]
  else if r < 0x10000 then
    [(0xE0 + r / 4096).toUInt8, (0x80 + r / 64 % 64).toUInt8, (0x80 + r % 64).toUInt8]
  else
    [(0xF0 + r / 262144).toUInt8, (0x80 + r / 4096 % 64).toUInt8,
     (0x80 + r / 64 % 64).toUInt8, (0x80 + r % 64).toUInt8]

/-- The Go string written as the source literal `s`. -/
def str (s : String) : GoString := s.toList.flatMap (fun c => encodeRune c.toNat)

/-- The byte of an ASCII character. -/
def byte (c : Char) : UInt8 := c.toNat.toUInt8

/-! ## package strconv -/

/-- `strconv.ParseBool`: the value, and `false` with an error (here `none`) for a
string that is not one of the twelve accepted spellings. -/
def ParseBool (s : GoString) : Option Bool :=
  if s = str "1" ∨ s = str "t" ∨ s = str "T" ∨ s = str "TRUE" ∨ s = str "true" ∨ s = str "True" then
    some true
  else if s = str "0" ∨ s = str "f" ∨ s = str "F" ∨ s = str "FALSE" ∨ s = str "false" ∨
      s = str "False" then
    some false
  else
    none

/-! ## package fmt

`fmt.Sprintf(format, a...)` for operands of type `int`, on the directives
`%%` and `%d` with the flags `#`, `0`, `+`, `-`, space and a decimal width.  A
format that uses anything else (an explicit argument index `[n]`, a `*` width, a
precision, another verb) is outside the fragment covered here and gives `none`. -/

/-- The flags of a directive, as `fmt` keeps them while it reads the format. -/
structure fmtFlags where
  sharp : Bool := false
  zero : Bool := false
  plus : Bool := false
  minus : Bool := false
  space : Bool := false
deriving DecidableEq, Repr

/-- Decimal digits of `n`, most significant first. -/
def decimal (n : Nat) : GoString := (Nat.toDigits 10 n).map byte

/-- `(*fmt).fmtInteger` in base 10 for a signed operand, followed by `(*fmt).pad`:
zeros up to the width when the `0` flag is in force (one fewer when a sign is
written), then the sign, then spaces up to the width, on the right with `-`. -/
def fmtInteger (f : fmtFlags) (wid : Nat) (widPresent : Bool) (v : Int) : GoString :=
  let negative := decide (v < 0)
  let digits := decimal v.natAbs
  let prec := if f.zero && widPresent then
      (if negative || f.plus || f.space then wid - 1 else wid)
    else 0
  let buf := List.replicate (prec - digits.length) (byte '0') ++ digits
  let buf := if negative then byte '-' :: buf
    else if f.plus then byte '+' :: buf
    else if f.space then byte ' ' :: buf
    else buf
  if !widPresent || wid == 0 then buf
  else if !f.minus then List.replicate (wid - buf.length) (byte ' ') ++ buf
  else buf ++ List.replicate (wid - buf.length) (byte ' ')

/-- The operand `v` as `%!(EXTRA ...)` shows it: its type, `=`, and `%v` of it. -/
def extraArg (v : Int) : GoString := str "int=" ++ fmtInteger {} 0 false v

/-- What `doPrintf` appends at the end of the format for operands no directive used. -/
def extraArgs (a : List Int) : GoString :=
  if a = [] then []
  else str "%!(EXTRA " ++ (str ", ").intercalate (a.map extraArg) ++ str ")"

/-- Where `doPrintf` stands in the format. -/
inductive fmtState where
  /-- Copying the text between directives. -/
  | text
  /-- After `%`, reading flags. -/
  | flags (f : fmtFlags)
  /-- Reading the digits of the width (`parsenum`), `num` read so far. -/
  | width (f : fmtFlags) (num : Nat)

/-- The verb `c` of a directive with flags `f` and width `wid`; `rest a` is the
output for the format after the verb with the operands `a` left. -/
def fmtVerb (f : fmtFlags) (wid : Nat) (widPresent : Bool) (c : UInt8) (a : List Int)
    (rest : List Int → Option GoString) : Option GoString :=
  if c = byte '%' then (rest a).map (fun out => byte '%' :: out)
  else if c = byte 'd' then
    match a with
    | [] => (rest []).map (fun out => str "%!d(MISSING)" ++ out)
    | v :: a => (rest a).map (fun out => fmtInteger f wid widPresent v ++ out)
  else none

/-- `(*pp).doPrintf` on the operands `a` not yet used. -/
def doPrintf : fmtState → GoString → List Int → Option GoString
  | .text, [], a => some (extraArgs a)
  | .text, c :: format, a =>
    if c = byte '%' then doPrintf (.flags {}) format a
    else (doPrintf .text format a).map (fun out => c :: out)
  | .flags _, [], a => some (str "%!(NOVERB)" ++ extraArgs a)
  | .flags f, c :: format, a =>
    if c = byte '#' then doPrintf (.flags { f with sharp := true }) format a
    else if c = byte '0' then doPrintf (.flags { f with zero := !f.minus }) format a
    else if c = byte '+' then doPrintf (.flags { f with plus := true }) format a
    else if c = byte '-' then doPrintf (.flags { f with minus := true, zero := false }) format a
    else if c = byte ' ' then doPrintf (.flags { f with space := true }) format a
    else if byte '1' ≤ c ∧ c ≤ byte '9' then
      doPrintf (.width f (c.toNat - 48)) format a
    else fmtVerb f 0 false c a (fun a => doPrintf .text format a)
  | .width _ _, [], a => some (str "%!(NOVERB)" ++ extraArgs a)
  | .width f num, c :: format, a =>
    if byte '0' ≤ c ∧ c ≤ byte '9' then
      if 1000000 < num then some (str "%!(NOVERB)" ++ extraArgs a)
      else doPrintf (.width f (num * 10 + (c.toNat - 48))) format a
    else fmtVerb f num true c a (fun a => doPrintf .text format a)

/-- `fmt.Sprintf(format, a...)` with `int` operands. -/
def Sprintf (format : GoString) (a : List Int) : Option GoString :=
  doPrintf .text format a

/-! ## package encoding/json: the scanner

`json.Unmarshal` first checks the whole input against the JSON grammar
(`checkValid`) and only then decodes.  Both passes are modelled by a parser to a
syntax tree and a decoder from the tree. -/

/-- A JSON value as the scanner delimits it; strings are unquoted, numbers are
kept as their literal. -/
inductive JSON where
  | null
  | bool (b : Bool)
  | number (literal : Bytes)
  | string (s : GoString)
  | array (elems : List JSON)
  | object (members : List (GoString × JSON))

/-- `isSpace` of scanner.go. -/
def isSpace (c : UInt8) : Bool :=
  c = byte ' ' || c = byte '\t' || c = byte '\r' || c = byte '\n'

/-- Drops leading JSON white space. -/
def skipSpace : Bytes → Bytes
  | [] => []
  | c :: rest => if isSpace c then skipSpace rest else c :: rest

/-- A decimal digit. -/
def isDigit (c : UInt8) : Bool := byte '0' ≤ c && c ≤ byte '9'

/-- A hexadecimal digit. -/
def isHex (c : UInt8) : Bool :=
  isDigit c || (byte 'a' ≤ c && c ≤ byte 'f') || (byte 'A' ≤ c && c ≤ byte 'F')

/-- Value of a hexadecimal digit. -/
def hexVal (c : UInt8) : Nat :=
  if isDigit c then c.toNat - 48
  else if byte 'a' ≤ c && c ≤ byte 'f' then c.toNat - 87
  else c.toNat - 55

/-- The character after a backslash in a string, `u` apart. -/
def isEscape (c : UInt8) : Bool :=
  c = byte 'b' || c = byte 'f' || c = byte 'n' || c = byte 'r' || c = byte 't' ||
    c = byte '\\' || c = byte '/' || c = byte '"'

/-- The scanner inside a string literal, after the opening quote: the raw text up
to the closing quote and the input after it.  A control character, an unknown
escape or the end of the input is a syntax error. -/
def scanString : Bytes → Option (Bytes × Bytes)
  | [] => none
  | c :: rest =>
    if c = byte '"' then some ([], rest)
    else if c = byte '\\' then
      match rest with
      | [] => none
      | e :: rest =>
        if isEscape e then
          (scanString rest).map (fun r => (c :: e :: r.1, r.2))
        else if e = byte 'u' then
          match rest with
          | h1 :: h2 :: h3 :: h4 :: rest =>
            if isHex h1 && isHex h2 && isHex h3 && isHex h4 then
              (scanString rest).map (fun r => (c :: e :: h1 :: h2 :: h3 :: h4 :: r.1, r.2))
            else none
          | _ => none
        else none
    else if c < 0x20 then none
    else (scanString rest).map (fun r => (c :: r.1, r.2))

/-- The byte an escape other than `\u` stands for. -/
def unescape (e : UInt8) : UInt8 :=
  if e = byte 'b' then 8
  else if e = byte 'f' then 12
  else if e = byte 'n' then 10
  else if e = byte 'r' then 13
  else if e = byte 't' then 9
  else e

/-- A continuation byte of UTF-8. -/
def isCont (c : UInt8) : Bool := 0x80 ≤ c && c ≤ 0xBF

/-- Length of the valid UTF-8 encoding that starts with the non-ASCII byte `c`
followed by `rest`, 0 when there is none (`utf8.DecodeRune` gives `RuneError`
with size 1). -/
def utf8Size (c : UInt8) (rest : Bytes) : Nat :=
  match rest with
  | [] => 0
  | b1 :: rest =>
    if 0xC2 ≤ c && c ≤ 0xDF then (if isCont b1 then 2 else 0)
    else
      match rest with
      | [] => 0
      | b2 :: rest =>
        if c = 0xE0 then (if 0xA0 ≤ b1 && b1 ≤ 0xBF && isCont b2 then 3 else 0)
        else if c = 0xED then (if 0x80 ≤ b1 && b1 ≤ 0x9F && isCont b2 then 3 else 0)
        else if 0xE1 ≤ c && c ≤ 0xEF then (if isCont b1 && isCont b2 then 3 else 0)
        else
          match rest with
          | [] => 0
          | b3 :: _ =>
            if c = 0xF0 then (if 0x90 ≤ b1 && b1 ≤ 0xBF && isCont b2 && isCont b3 then 4 else 0)
            else if c = 0xF4 then
              (if 0x80 ≤ b1 && b1 ≤ 0x8F && isCont b2 && isCont b3 then 4 else 0)
            else if 0xF1 ≤ c && c ≤ 0xF3 then
              (if isCont b1 && isCont b2 && isCont b3 then 4 else 0)
            else 0

/-- The four hexadecimal digits of a `\u` escape as a number (`getu4`). -/
def getu4 (h1 h2 h3 h4 : UInt8) : Nat :=
  ((hexVal h1 * 16 + hexVal h2) * 16 + hexVal h3) * 16 + hexVal h4

/-- The code point of a `\u` escape that is the high half of a surrogate pair,
when the text after it is the low half (`utf16.DecodeRune`). -/
def surrogatePair (rr : Nat) (rest : Bytes) : Option (Nat × Bytes) :=
  match rest with
  | b :: u :: h1 :: h2 :: h3 :: h4 :: rest =>
    let rr1 := getu4 h1 h2 h3 h4
    if b = byte '\\' && u = byte 'u' && isHex h1 && isHex h2 && isHex h3 && isHex h4 &&
        decide (0xD800 ≤ rr) && decide (rr < 0xDC00) && decide (0xDC00 ≤ rr1) &&
        decide (rr1 < 0xE000) then
      some ((rr - 0xD800) * 1024 + (rr1 - 0xDC00) + 0x10000, rest)
    else none
  | _ => none

/-- `unquoteBytes` on the raw text of a string literal the scanner accepted:
escapes are replaced, a lone surrogate escape and every byte that is not part of
valid UTF-8 become U+FFFD.  `fuel` bounds the number of steps, each of which
consumes input. -/
def unquoteAux : Nat → Bytes → GoString
  | 0, _ => []
  | _, [] => []
  | fuel + 1, c :: rest =>
    if c = byte '\\' then
      match rest with
      | [] => []
      | e :: rest =>
        if e = byte 'u' then
          match rest with
          | h1 :: h2 :: h3 :: h4 :: rest =>
            let rr := getu4 h1 h2 h3 h4
            if 0xD800 ≤ rr ∧ rr < 0xE000 then
              match surrogatePair rr rest with
              | some (dec, rest) => encodeRune dec ++ unquoteAux fuel rest
              | none => encodeRune 0xFFFD ++ unquoteAux fuel rest
            else encodeRune rr ++ unquoteAux fuel rest
          | _ => []
        else unescape e :: unquoteAux fuel rest
    else if c < 0x80 then c :: unquoteAux fuel rest
    else
      let size := utf8Size c rest
      if size = 0 then encodeRune 0xFFFD ++ unquoteAux fuel rest
      else c :: rest.take (size - 1) ++ unquoteAux fuel (rest.drop (size - 1))

/-- `unquoteBytes` on the raw text between the quotes. -/
def unquote (raw : Bytes) : GoString := unquoteAux raw.length raw

/-- The digits at the front of the input, at least one. -/
def scanDigits (input : Bytes) : Option (Bytes × Bytes) :=
  match input.span isDigit with
  | ([], _) => none
  | (ds, rest) => some (ds, rest)

/-- The scanner on a number, `-? (0 | [1-9][0-9]*) (. [0-9]+)? ([eE] [+-]? [0-9]+)?`:
the literal and the input after it. -/
def scanNumber (input : Bytes) : Option (Bytes × Bytes) :=
  let (sign, input) := match input with
    | c :: rest => if c = byte '-' then ([c], rest) else ([], c :: rest)
    | [] => ([], [])
  let intPart : Option (Bytes × Bytes) := match input with
    | c :: rest =>
      if c = byte '0' then some ([c], rest)
      else if isDigit c then some ((c :: rest).span isDigit)
      else none
    | [] => none
  match intPart with
  | none => none
  | some (ip, input) =>
    let frac : Option (Bytes × Bytes) := match input with
      | c :: rest =>
        if c = byte '.' then (scanDigits rest).map (fun r => (c :: r.1, r.2))
        else some ([], c :: rest)
      | [] => some ([], [])
    match frac with
    | none => none
    | some (fp, input) =>
      let exp : Option (Bytes × Bytes) := match input with
        | c :: rest =>
          if c = byte 'e' || c = byte 'E' then
            match rest with
            | s :: rest2 =>
              if s = byte '+' || s = byte '-' then
                (scanDigits rest2).map (fun r => (c :: s :: r.1, r.2))
              else (scanDigits (s :: rest2)).map (fun r => (c :: r.1, r.2))
            | [] => none
          else some ([], c :: rest)
        | [] => some ([], [])
      match exp with
      | none => none
      | some (ep, input) => some (sign ++ ip ++ fp ++ ep, input)

/-- The elements of an array after the first position, up to the closing bracket;
`value` parses one element.  `fuel` bounds the number of elements; the caller
passes more than the length of the input, and every element takes a byte. -/
def parseElems (value : Bytes → Option (JSON × Bytes)) :
    Nat → Bytes → Option (List JSON × Bytes)
  | 0, _ => none
  | fuel + 1, input =>
    match value input with
    | none => none
    | some (v, rest) =>
      match skipSpace rest with
      | [] => none
      | c :: rest =>
        if c = byte ',' then (parseElems value fuel rest).map (fun r => (v :: r.1, r.2))
        else if c = byte ']' then some ([v], rest)
        else none

/-- The members of an object from a key on, up to the closing brace.  `fuel` bounds
the number of members; the caller passes more than the length of the input. -/
def parseMembers (value : Bytes → Option (JSON × Bytes)) :
    Nat → Bytes → Option (List (GoString × JSON) × Bytes)
  | 0, _ => none
  | fuel + 1, input =>
    match skipSpace input with
    | [] => none
    | q :: rest =>
      if q = byte '"' then
        match scanString rest with
        | none => none
        | some (raw, rest) =>
          match skipSpace rest with
          | [] => none
          | colon :: rest =>
            if colon = byte ':' then
              match value rest with
              | none => none
              | some (v, rest) =>
                match skipSpace rest with
                | [] => none
                | c :: rest =>
                  if c = byte ',' then
                    (parseMembers value fuel rest).map (fun r => ((unquote raw, v) :: r.1, r.2))
                  else if c = byte '}' then some ([(unquote raw, v)], rest)
                  else none
            else none
      else none

/-- One JSON value at the front of the input, after optional white space.  `sub`
parses the values nested in an array or object; it is `none` when the nesting
limit is reached. -/
def parseValueWith (sub : Option (Bytes → Option (JSON × Bytes))) (input : Bytes) :
    Option (JSON × Bytes) :=
  match skipSpace input with
  | [] => none
  | c :: rest =>
    if c = byte '{' then
      match sub with
      | none => none
      | some value =>
        match skipSpace rest with
        | [] => none
        | c2 :: rest2 =>
          if c2 = byte '}' then some (.object [], rest2)
          else (parseMembers value (rest.length + 1) (c2 :: rest2)).map
            (fun r => (.object r.1, r.2))
    else if c = byte '[' then
      match sub with
      | none => none
      | some value =>
        match skipSpace rest with
        | [] => none
        | c2 :: rest2 =>
          if c2 = byte ']' then some (.array [], rest2)
          else (parseElems value (rest.length + 1) (c2 :: rest2)).map
            (fun r => (.array r.1, r.2))
    else if c = byte '"' then
      (scanString rest).map (fun r => (.string (unquote r.1), r.2))
    else if (c :: rest).take 4 = str "true" then some (.bool true, rest.drop 3)
    else if (c :: rest).take 5 = str "false" then some (.bool false, rest.drop 4)
    else if (c :: rest).take 4 = str "null" then some (.null, rest.drop 3)
    else (scanNumber (c :: rest)).map (fun r => (.number r.1, r.2))

/-- One JSON value nested in at most `depth` arrays and objects. -/
def parseValue : Nat → Bytes → Option (JSON × Bytes)
  | 0 => parseValueWith none
  | depth + 1 => parseValueWith (some (parseValue depth))

/-- `maxNestingDepth` of scanner.go. -/
def maxNestingDepth : Nat := 10000

/-- `checkValid`: the whole input is one JSON value between optional white space. -/
def parseJSON (data : Bytes) : Option JSON :=
  match parseValue maxNestingDepth data with
  | none => none
  | some (v, rest) => if skipSpace rest = [] then some v else none

/-! ## Errors

The values of Go's `error` interface that reach this program. -/

/-- An `error`. -/
inductive GoError where
  /-- An error returned by the AWS SDK, with its code. -/
  | aws (code : GoString)
  /-- `*json.SyntaxError`: the input is not JSON. -/
  | jsonSyntax
  /-- `*json.UnmarshalTypeError`: a JSON value does not fit the Go type. -/
  | jsonUnmarshalType
deriving DecidableEq, Repr

/-! ## config/config.go

`os.Getenv` is the process environment, a function from names to values that
gives the empty string for a variable that is not set. -/

/-- `config.GetS3Bucket`. -/
def config.GetS3Bucket (Getenv : GoString → GoString) : GoString :=
  Getenv (str "S3_BUCKET")

/-- `config.GetS3PathFormat`. -/
def config.GetS3PathFormat (Getenv : GoString → GoString) : GoString :=
  Getenv (str "S3_PATH_FORMAT")

/-- `config.GetDatabaseName`. -/
def config.GetDatabaseName (Getenv : GoString → GoString) : GoString :=
  Getenv (str "DATABASE_NAME")

/-- `config.OnlyThisMonth`: the error of `strconv.ParseBool` is discarded, and with
it comes the value `false`. -/
def config.OnlyThisMonth (Getenv : GoString → GoString) : Bool :=
  match ParseBool (Getenv (str "ONLY_THIS_MONTH")) with
  | some onlyThisMonth => onlyThisMonth
  | none => false

/-! ## main.go: data model -/

/-- `type TargetDate struct { Year int; Month int }`. -/
structure TargetDate where
  Year : Int
  Month : Int
deriving DecidableEq, Repr

/-- A `float64` obtained from `strconv.ParseFloat`, kept as the decimal
`mant * 10 ^ exp10` it is the rounding of.  The program never computes with it. -/
structure Float64 where
  mant : Int := 0
  exp10 : Int := 0
deriving DecidableEq, Repr

/-- `type Ticker struct`, with the keys of its `json` tags: `symble`, `bid`,
`value`, `hold`. -/
structure Ticker where
  Symbol : GoString := []
  Bid : Float64 := {}
  Value : Float64 := {}
  Hold : Int := 0
deriving DecidableEq, Repr

/-- `type Result struct`, with the keys `created_at` and `body`. -/
structure Result where
  CreatedAt : GoString := []
  Body : List Ticker := []
deriving DecidableEq, Repr

/-! ## package encoding/json: decoding into `Result`

A type mismatch does not stop the decoder: it is recorded (`saveError`), the
value is skipped and the rest is decoded, and `Unmarshal` returns the recorded
error at the end.  Each decoder below returns the new value of its target and
whether an error was recorded. -/

/-- `foldName`: ASCII letters go to upper case, and the two non-ASCII letters
that fold to an ASCII one, U+017F (to S) and U+212A (to K), go with them. -/
def foldName : GoString → GoString
  | [] => []
  | c :: rest =>
    if byte 'a' ≤ c ∧ c ≤ byte 'z' then (c - 32) :: foldName rest
    else if c = 0xC5 ∧ rest.head? = some 0xBF then
      match rest with
      | [] => [c]
      | _ :: rest1 => byte 'S' :: foldName rest1
    else if c = 0xE2 ∧ rest.take 2 = [0x84, 0xAA] then
      match rest with
      | _ :: _ :: rest2 => byte 'K' :: foldName rest2
      | _ => [c]
    else c :: foldName rest

/-- The field of a struct a JSON key selects, by position in `names`: the one
with exactly that name, or else the first one equal to it under `foldName`. -/
def fieldIndex (names : List GoString) (key : GoString) : Option Nat :=
  match names.indexOf? key with
  | some i => some i
  | none => (names.map foldName).indexOf? (foldName key)

/-- The value of a run of decimal digits. -/
def digitsVal (ds : Bytes) : Nat := ds.foldl (fun n c => n * 10 + (c.toNat - 48)) 0

/-- The decimal a JSON number literal denotes. -/
def literalDecimal (lit : Bytes) : Float64 :=
  let neg := lit.head? = some (byte '-')
  let body := if neg then lit.drop 1 else lit
  let (ip, rest) := body.span isDigit
  let (fp, rest) := match rest with
    | c :: rest => if c = byte '.' then rest.span isDigit else ([], c :: rest)
    | [] => ([], [])
  let e : Int := match rest with
    | _ :: s :: ds =>
      if s = byte '-' then - (digitsVal ds : Int)
      else if s = byte '+' then (digitsVal ds : Int)
      else (digitsVal (s :: ds) : Int)
    | _ => 0
  let m : Int := digitsVal (ip ++ fp)
  { mant := if neg then - m else m, exp10 := e - fp.length }

/-- The number `2^1024 - 2^970`, half way between the largest `float64` and `2^1024`. -/
def float64Limit : Nat :=
  179769313486231580793728971405303415079934132710037826936173778980444968292764750946649017977587207096330286416692887910946555547851940402630657488671505820681908902000708383676273854845817711531764475730270069855571366959622842914819860834936475292719074168444365510704342711559699508093042880177904174497792

/-- Whether `strconv.ParseFloat(s, 64)` reports a range error: the decimal rounds
to an infinity, which it does from `float64Limit` on. -/
def floatOutOfRange (x : Float64) : Bool :=
  if 0 ≤ x.exp10 then decide (float64Limit ≤ x.mant.natAbs * 10 ^ x.exp10.toNat)
  else decide (float64Limit * 10 ^ (- x.exp10).toNat ≤ x.mant.natAbs)

/-- `strconv.ParseInt(s, 10, 64)` on a JSON number literal: the integer, or
`none` for a literal with a fraction or an exponent or outside `int64`. -/
def literalInt (lit : Bytes) : Option Int :=
  let neg := lit.head? = some (byte '-')
  let body := if neg then lit.drop 1 else lit
  if body.all isDigit then
    let n : Int := if neg then - (digitsVal body : Int) else digitsVal body
    if - 2 ^ 63 ≤ n ∧ n < 2 ^ 63 then some n else none
  else none

/-- Decoding into a `string`: a JSON string is stored, `null` leaves the target
as it is, anything else is a type error. -/
def decodeString (v : JSON) (old : GoString) : GoString × Bool :=
  match v with
  | .string s => (s, false)
  | .null => (old, false)
  | _ => (old, true)

/-- Decoding into a `float64`. -/
def decodeFloat64 (v : JSON) (old : Float64) : Float64 × Bool :=
  match v with
  | .number lit =>
    if floatOutOfRange (literalDecimal lit) then (old, true) else (literalDecimal lit, false)
  | .null => (old, false)
  | _ => (old, true)

/-- Decoding into an `int`. -/
def decodeInt (v : JSON) (old : Int) : Int × Bool :=
  match v with
  | .number lit =>
    match literalInt lit with
    | some n => (n, false)
    | none => (old, true)
  | .null => (old, false)
  | _ => (old, true)

/-- The keys of `Ticker`, in field order. -/
def tickerFields : List GoString := [str "symble", str "bid", str "value", str "hold"]

/-- One member of a JSON object decoded into a `Ticker`; a key that selects no
field is skipped. -/
def decodeTickerMember (acc : Ticker × Bool) (m : GoString × JSON) : Ticker × Bool :=
  match fieldIndex tickerFields m.1 with
  | some 0 => let r := decodeString m.2 acc.1.Symbol; ({ acc.1 with Symbol := r.1 }, acc.2 || r.2)
  | some 1 => let r := decodeFloat64 m.2 acc.1.Bid; ({ acc.1 with Bid := r.1 }, acc.2 || r.2)
  | some 2 => let r := decodeFloat64 m.2 acc.1.Value; ({ acc.1 with Value := r.1 }, acc.2 || r.2)
  | some 3 => let r := decodeInt m.2 acc.1.Hold; ({ acc.1 with Hold := r.1 }, acc.2 || r.2)
  | _ => acc

/-- Decoding into a `Ticker`: the members of an object in their order, `null`
leaves the target as it is, anything else is a type error. -/
def decodeTicker (v : JSON) (old : Ticker) : Ticker × Bool :=
  match v with
  | .object members => members.foldl decodeTickerMember (old, false)
  | .null => (old, false)
  | _ => (old, true)

/-- Decoding into a `[]Ticker`: an array element by element, `null` gives the
nil slice, anything else is a type error.  Every element is decoded into a zero
`Ticker` here; when `body` occurs twice, encoding/json decodes the elements of
the second array over those of the first.  The program never reads `Body`. -/
def decodeBody (v : JSON) (old : List Ticker) : List Ticker × Bool :=
  match v with
  | .array elems =>
    (elems.map (fun e => (decodeTicker e {}).1), elems.any (fun e => (decodeTicker e {}).2))
  | .null => ([], false)
  | _ => (old, true)

/-- The keys of `Result`, in field order. -/
def resultFields : List GoString := [str "created_at", str "body"]

/-- One member of a JSON object decoded into a `Result`. -/
def decodeResultMember (acc : Result × Bool) (m : GoString × JSON) : Result × Bool :=
  match fieldIndex resultFields m.1 with
  | some 0 =>
    let r := decodeString m.2 acc.1.CreatedAt; ({ acc.1 with CreatedAt := r.1 }, acc.2 || r.2)
  | some 1 => let r := decodeBody m.2 acc.1.Body; ({ acc.1 with Body := r.1 }, acc.2 || r.2)
  | _ => acc

/-- Decoding into a `Result`. -/
def decodeResult (v : JSON) (old : Result) : Result × Bool :=
  match v with
  | .object members => members.foldl decodeResultMember (old, false)
  | .null => (old, false)
  | _ => (old, true)

/-- `json.Unmarshal(data, &result)`: the value of `result` afterwards and the
error returned.  On a syntax error `result` is untouched. -/
def Unmarshal (data : Bytes) (result : Result) : Result × Option GoError :=
  match parseJSON data with
  | none => (result, some .jsonSyntax)
  | some v =>
    let r := decodeResult v result
    (r.1, if r.2 then some .jsonUnmarshalType else none)

/-! ## The AWS SDK and the surroundings of the process

The clock, the environment, S3 and DynamoDB are outside the program.  They are a
parameter: a state `W` of the outside world and, for every call the program
makes, its result and the state afterwards.  Go's `(value, err)` results are
pairs whose second component is `none` for `nil`. -/

/-- `dynamodb.AttributeValue` with its `S` member set. -/
structure AttributeValue where
  S : GoString
deriving DecidableEq, Repr

/-- `dynamodb.PutItemInput`, with the members the program sets and the condition
it leaves unset. -/
structure PutItemInput where
  TableName : GoString
  Item : List (GoString × AttributeValue)
  ConditionExpression : Option GoString := none
deriving DecidableEq, Repr

/-- The outside world as the program sees it. -/
structure Outside (W : Type) where
  /-- `os.Getenv`. -/
  Getenv : GoString → GoString
  /-- `time.Now()`. -/
  Now : W → Time × W
  /-- `session.NewSession` for a region. -/
  NewSession : GoString → W → Option GoError × W
  /-- `svc.GetObject` for a bucket and a key, followed by `buf.ReadFrom(obj.Body)`:
  the bytes read from the body (an error of the read itself is dropped by the
  program) and the error of `GetObject`. -/
  GetObject : GoString → GoString → W → (Bytes × Option GoError) × W
  /-- `ddb.PutItem`. -/
  PutItem : PutItemInput → W → Option GoError × W

/-- A call the program made to the outside, with what it got back. -/
inductive Event where
  | now (t : Time)
  | newSession (region : GoString) (err : Option GoError)
  | getObject (bucket key : GoString) (body : Bytes) (err : Option GoError)
  | putItem (input : PutItemInput) (err : Option GoError)
deriving DecidableEq, Repr

/-- The state of a run: the outside world and the calls made so far, oldest first. -/
structure Run (W : Type) where
  world : W
  log : List Event

/-- `endpoints.ApNortheast1RegionID`. -/
def ApNortheast1RegionID : GoString := str "ap-northeast-1"

/-- The call `time.Now()`. -/
def timeNow {W : Type} (O : Outside W) (r : Run W) : Time × Run W :=
  let res := O.Now r.world
  (res.1, { world := res.2, log := r.log ++ [.now res.1] })

/-- The call `session.NewSession(&aws.Config{Region: ...})`. -/
def sessionNewSession {W : Type} (O : Outside W) (region : GoString) (r : Run W) :
    Option GoError × Run W :=
  let res := O.NewSession region r.world
  (res.1, { world := res.2, log := r.log ++ [.newSession region res.1] })

/-- The call `svc.GetObject(...)` and the read of the body. -/
def s3GetObject {W : Type} (O : Outside W) (bucket key : GoString) (r : Run W) :
    (Bytes × Option GoError) × Run W :=
  let res := O.GetObject bucket key r.world
  (res.1, { world := res.2, log := r.log ++ [.getObject bucket key res.1.1 res.1.2] })

/-- The call `ddb.PutItem(param)`. -/
def dynamodbPutItem {W : Type} (O : Outside W) (param : PutItemInput) (r : Run W) :
    Option GoError × Run W :=
  let res := O.PutItem param r.world
  (res.1, { world := res.2, log := r.log ++ [.putItem param res.1] })

/-! ## main.go -/

/-- `GetFileDataFromS3`. -/
def GetFileDataFromS3 {W : Type} (O : Outside W) (bucket path : GoString) (r : Run W) :
    (Bytes × Option GoError) × Run W :=
  match sessionNewSession O ApNortheast1RegionID r with
  | (some err, r) => (([], some err), r)
  | (none, r) =>
    match s3GetObject O bucket path r with
    | ((_, some err), r) => (([], some err), r)
    | ((body, none), r) => ((body, none), r)

/-- The `param` that `StoreDataForDynamo` builds. -/
def StoreDataForDynamo.param (Getenv : GoString → GoString) (data : Bytes) (result : Result) :
    PutItemInput :=
  { TableName := config.GetDatabaseName Getenv
    Item := [(str "date", { S := result.CreatedAt }), (str "body", { S := data })] }

/-- `StoreDataForDynamo`. -/
def StoreDataForDynamo {W : Type} (O : Outside W) (data : Bytes) (result : Result) (r : Run W) :
    Option GoError × Run W :=
  match sessionNewSession O ApNortheast1RegionID r with
  | (some err, r) => (some err, r)
  | (none, r) =>
    match dynamodbPutItem O (StoreDataForDynamo.param O.Getenv data result) r with
    | (some err, r) => (some err, r)
    | (none, r) => (none, r)

/-- `StoreStockDataFromS3`. -/
def StoreStockDataFromS3 {W : Type} (O : Outside W) : List GoString → Run W → Option GoError × Run W
  | [], r => (none, r)
  | targetPath :: targetPaths, r =>
    match GetFileDataFromS3 O (config.GetS3Bucket O.Getenv) targetPath r with
    | ((_, some err), r) => (some err, r)
    | ((data, none), r) =>
      match Unmarshal data {} with
      | (_, some err) => (some err, r)
      | (result, none) =>
        match StoreDataForDynamo O data result r with
        | (some err, r) => (some err, r)
        | (none, r) => StoreStockDataFromS3 O targetPaths r

/-- The `for` loop of `GetTargetDateList`: `stop` is `end`, the clock reading. -/
def GetTargetDateList.loop (stop : Time) (start : Time) (targetDateList : List TargetDate) :
    List TargetDate :=
  if start.Before stop then
    GetTargetDateList.loop stop (start.AddDate 0 1 0)
      (targetDateList ++ [{ Year := start.Year, Month := start.Month }])
  else
    targetDateList
termination_by (stop.monthIndex + 1 - start.monthIndex).toNat
decreasing_by
  have h1 : start.monthIndex ≤ stop.monthIndex := by
    simp only [Time.Before, Bool.or_eq_true, Bool.and_eq_true, decide_eq_true_eq] at *
    omega
  have carry_ge : ∀ (fuel : Nat) (idx off : Int), 0 ≤ off →
      idx ≤ (Time.carry fuel idx off).monthIndex := by
    intro fuel
    induction fuel with
    | zero => intro idx off _; simp [Time.carry]
    | succ n ih =>
      intro idx off h
      unfold Time.carry
      split
      · omega
      · split
        · have := ih (idx + 1) (off - monthNanos idx) (by omega)
          omega
        · simp
  have h2 := carry_ge (Time.carryFuel ((start.offset : Int) + 0 * nanosPerDay))
    (start.monthIndex + 12 * 0 + 1) ((start.offset : Int) + 0 * nanosPerDay) (by omega)
  simp only [Time.AddDate]
  omega

/-- The loop of `CreateTargetPath` over the dates left, `paths` being the slice built so far. -/
def CreateTargetPath.loop (Getenv : GoString → GoString) :
    List TargetDate → List GoString → Option (List GoString)
  | [], paths => some paths
  | target :: targetDate, paths =>
    match Sprintf (config.GetS3PathFormat Getenv) [target.Year, target.Month] with
    | none => none
    | some path => CreateTargetPath.loop Getenv targetDate (paths ++ [path])

/-- `CreateTargetPath`: one path per date, `none` when the format is outside the
fragment of `Sprintf` that is modelled. -/
def CreateTargetPath (Getenv : GoString → GoString) (targetDate : List TargetDate) :
    Option (List GoString) :=
  CreateTargetPath.loop Getenv targetDate []

/-- `GetTargetDateList`. -/
def GetTargetDateList {W : Type} (O : Outside W) (r : Run W) : List TargetDate × Run W :=
  let start := Time.Date 2021 6 1 0 0 0 0
  match timeNow O r with
  | (stop, r) => (GetTargetDateList.loop stop start [], r)

/-- The first lines of `Handler`: the dates to process.  `time.Now()` is called
once for the year and once more for the month. -/
def Handler.targetDate {W : Type} (O : Outside W) (r : Run W) : List TargetDate × Run W :=
  match timeNow O r with
  | (now1, r) =>
    match timeNow O r with
    | (now2, r) =>
      let targetDate : List TargetDate := [{ Year := now1.Year, Month := now2.Month }]
      if !config.OnlyThisMonth O.Getenv then GetTargetDateList O r
      else (targetDate, r)

/-- `Handler`: the error handed to `log.Fatalln`, if any, and the state at the
end; `none` when the path format is outside the modelled fragment of `Sprintf`. -/
def Handler {W : Type} (O : Outside W) (r : Run W) : Option (Option GoError × Run W) :=
  match Handler.targetDate O r with
  | (targetDate, r) =>
    match CreateTargetPath O.Getenv targetDate with
    | none => none
    | some targetPaths => some (StoreStockDataFromS3 O targetPaths r)

/-! ## A concrete outside world

A clock given by its successive readings, a bucket whose objects do not change,
and a DynamoDB whose tables have the attribute `date` as their key. -/

/-- The items stored, each with the name of its table, newest first. -/
abbrev Store := List (GoString × List (GoString × AttributeValue))

/-- The value of attribute `name` of an item. -/
def attr (item : List (GoString × AttributeValue)) (name : GoString) : Option GoString :=
  (item.lookup name).map (fun v => v.S)

/-- `PutItem` without a condition on a table keyed by `date`: an item of that
table with the same key is replaced. -/
def Store.put (input : PutItemInput) (store : Store) : Store :=
  (input.TableName, input.Item) ::
    store.filter (fun e => !(e.1 == input.TableName && attr e.2 (str "date") == attr input.Item (str "date")))

/-- The items of `table` whose key is `date`. -/
def Store.get (store : Store) (table date : GoString) : List (List (GoString × AttributeValue)) :=
  (store.filter (fun e => e.1 == table && attr e.2 (str "date") == some date)).map (fun e => e.2)

/-- State of the concrete world: how often the clock was read, and the store. -/
structure Cloud where
  reads : Nat
  store : Store
deriving DecidableEq, Repr

/-- The concrete world with environment `Getenv`, clock readings `clock` and
objects `objects`; sessions open and puts succeed. -/
def cloud (Getenv : GoString → GoString) (clock : Nat → Time)
    (objects : GoString → GoString → Bytes × Option GoError) : Outside Cloud where
  Getenv := Getenv
  Now := fun w => (clock w.reads, { w with reads := w.reads + 1 })
  NewSession := fun _ w => (none, w)
  GetObject := fun bucket key w => (objects bucket key, w)
  PutItem := fun input w => (none, { w with store := Store.put input w.store })

/-- The item stored in `table` under the key of `item`, if there is one. -/
def Store.existing (store : Store) (table : GoString) (item : List (GoString × AttributeValue)) :
    Option (List (GoString × AttributeValue)) :=
  ((store.filter (fun e => e.1 == table &&
    attr e.2 (str "date") == attr item (str "date"))).head?).map (fun e => e.2)

/-- `PutItem` as DynamoDB decides it on a table keyed by `date`.  A put without a
condition replaces the item under its key.  A put with a condition is carried out
only when the condition holds of the item stored under the key; `holds` is the
evaluation of condition expressions.  Otherwise it is refused with
`ConditionalCheckFailedException` and the store stays as it is. -/
def Store.putItem (holds : GoString → Option (List (GoString × AttributeValue)) → Bool)
    (input : PutItemInput) (store : Store) : Option GoError × Store :=
  match input.ConditionExpression with
  | none => (none, Store.put input store)
  | some condition =>
    if holds condition (Store.existing store input.TableName input.Item) then
      (none, Store.put input store)
    else (some (.aws (str "ConditionalCheckFailedException")), store)

/-- The concrete world whose DynamoDB evaluates the condition of a put with `holds`. -/
def conditionalCloud (holds : GoString → Option (List (GoString × AttributeValue)) → Bool)
    (Getenv : GoString → GoString) (clock : Nat → Time)
    (objects : GoString → GoString → Bytes × Option GoError) : Outside Cloud where
  Getenv := Getenv
  Now := fun w => (clock w.reads, { w with reads := w.reads + 1 })
  NewSession := fun _ w => (none, w)
  GetObject := fun bucket key w => (objects bucket key, w)
  PutItem := fun input w =>
    ((Store.putItem holds input w.store).1, { w with store := (Store.putItem holds input w.store).2 })

/-- A DynamoDB that refuses every put that carries a condition. -/
def neverHolds : GoString → Option (List (GoString × AttributeValue)) → Bool := fun _ _ => false

/-- An empty concrete world: the clock not yet read, nothing stored, no call made. -/
def Run.start : Run Cloud := { world := { reads := 0, store := [] }, log := [] }

/-- A bucket without objects: every `GetObject` fails with `NoSuchKey`. -/
def noObjects : GoString → GoString → Bytes × Option GoError :=
  fun _ _ => ([], some (.aws (str "NoSuchKey")))

/-- An environment in which no variable is set. -/
def noEnv : GoString → GoString := fun _ => []

/-- The payload of the specification's example,
`{"created_at":"2024-05-01T00:00:00Z","body":[{"symble":"AAA","bid":100.0,"value":110.0,"hold":10}]}`
(`\x7b` and `\x7d` are the braces). -/
def samplePayload : Bytes :=
  str ("\x7b\"created_at\":\"2024-05-01T00:00:00Z\"," ++
    "\"body\":[\x7b\"symble\":\"AAA\",\"bid\":100.0,\"value\":110.0,\"hold\":10\x7d]\x7d")

/-- A bucket in which every key holds `samplePayload`. -/
def sampleObjects : GoString → GoString → Bytes × Option GoError :=
  fun _ _ => (samplePayload, none)

/-- A bucket in which only the key `data/2021/06.json` exists, holding `samplePayload`. -/
def juneOnly : GoString → GoString → Bytes × Option GoError :=
  fun _ key => if key = str "data/2021/06.json" then (samplePayload, none)
    else ([], some (.aws (str "NoSuchKey")))

/-! ## Specification vocabulary -/

/-- The date of the month with index `idx` (`12 * year + (month - 1)`). -/
def monthOfIndex (idx : Int) : TargetDate := { Year := idx / 12, Month := idx % 12 + 1 }

/-- The `n` consecutive months from the month with index `idx` on, in ascending order. -/
def monthsFrom (idx : Int) (n : Nat) : List TargetDate :=
  (List.range n).map (fun (k : Nat) => monthOfIndex (idx + (k : Int)))

/-- Index of June 2021, the month `GetTargetDateList` starts from. -/
def epochIndex : Int := 12 * 2021 + (6 - 1)

/-- How many months, from the one with index `idx` on, begin strictly before `stop`. -/
def monthsBefore (stop : Time) (idx : Int) : Nat :=
  if stop.offset = 0 then (stop.monthIndex - idx).toNat else (stop.monthIndex + 1 - idx).toNat

/-- The bytes that are flags of a directive. -/
def flagBytes : List UInt8 := [byte '#', byte '0', byte '+', byte '-', byte ' ']

/-- The effect of one flag on the flags read so far. -/
def applyFlag (f : fmtFlags) (c : UInt8) : fmtFlags :=
  if c = byte '#' then { f with sharp := true }
  else if c = byte '0' then { f with zero := !f.minus }
  else if c = byte '+' then { f with plus := true }
  else if c = byte '-' then { f with minus := true, zero := false }
  else if c = byte ' ' then { f with space := true }
  else f

/-- A numeric slot of a template: a `%d` directive with flags and an optional
width of at most seven digits, such as `%d`, `%04d` or `%-3d`. -/
structure Slot where
  flags : List UInt8
  width : List UInt8
deriving DecidableEq, Repr

/-- The slot is written with flags only, and its width is a number without a
leading zero. -/
def Slot.wellFormed (s : Slot) : Prop :=
  (∀ c ∈ s.flags, c ∈ flagBytes) ∧ (∀ c ∈ s.width, isDigit c = true) ∧
    s.width.head? ≠ some (byte '0') ∧ s.width.length ≤ 7

instance (s : Slot) : Decidable s.wellFormed := by
  unfold Slot.wellFormed; infer_instance

/-- The slot as it is written in the template. -/
def Slot.text (s : Slot) : GoString := byte '%' :: (s.flags ++ s.width ++ [byte 'd'])

/-- The number `v` written into the slot. -/
def Slot.subst (s : Slot) (v : Int) : GoString :=
  fmtInteger (s.flags.foldl applyFlag {}) (digitsVal s.width) (!s.width.isEmpty) v

/-- A template with two numeric slots between three pieces of text. -/
def template2 (lit0 : GoString) (s1 : Slot) (lit1 : GoString) (s2 : Slot) (lit2 : GoString) :
    GoString :=
  lit0 ++ s1.text ++ lit1 ++ s2.text ++ lit2

/-- The template with `year` in its first slot and `month` in its second. -/
def template2.subst (lit0 : GoString) (s1 : Slot) (lit1 : GoString) (s2 : Slot) (lit2 : GoString)
    (year month : Int) : GoString :=
  lit0 ++ s1.subst year ++ lit1 ++ s2.subst month ++ lit2

/-- The body of the loop of `StoreStockDataFromS3`: one path fetched, decoded and put. -/
def storeOne {W : Type} (O : Outside W) (targetPath : GoString) (r : Run W) :
    Option GoError × Run W :=
  StoreStockDataFromS3 O [targetPath] r

/-- The inputs of the `PutItem` calls in a log, in the order of the calls. -/
def putsIssued (log : List Event) : List PutItemInput :=
  log.filterMap (fun e => match e with
    | .putItem input _ => some input
    | _ => none)

/-- The inputs of the `PutItem` calls in a log that returned no error: the records written. -/
def putsDone (log : List Event) : List PutItemInput :=
  log.filterMap (fun e => match e with
    | .putItem input none => some input
    | _ => none)

/-- The keys of the `GetObject` calls in a log, in the order of the calls. -/
def fetches (log : List Event) : List GoString :=
  log.filterMap (fun e => match e with
    | .getObject _ key _ _ => some key
    | _ => none)

/-- The keys and bodies of the `GetObject` calls in a log that returned no error. -/
def fetched (log : List Event) : List (GoString × Bytes) :=
  log.filterMap (fun e => match e with
    | .getObject _ key body none => some (key, body)
    | _ => none)

/-- The record written for the bytes `data`: `body` is `data` itself, `date` is the
`created_at` decoded from it. -/
def recordOf (Getenv : GoString → GoString) (data : Bytes) : PutItemInput :=
  { TableName := Getenv (str "DATABASE_NAME")
    Item := [(str "date", { S := (Unmarshal data {}).1.CreatedAt }), (str "body", { S := data })] }

/-- The value is `null`. -/
def JSON.isNull : JSON → Bool
  | .null => true
  | _ => false

/-- The value is a string. -/
def JSON.isString : JSON → Bool
  | .string _ => true
  | _ => false

/-- The value is an array. -/
def JSON.isArray : JSON → Bool
  | .array _ => true
  | _ => false

/-- What the decoder accepts for a `Result`: `null`, or an object in which every
member whose key selects `created_at` is a string or `null` and every member
whose key selects `body` is an array or `null`.  No member is required. -/
def acceptableResult (v : JSON) : Prop :=
  v.isNull = true ∨ ∃ members, v = .object members ∧ ∀ m ∈ members,
    (fieldIndex resultFields m.1 = some 0 → m.2.isString = true ∨ m.2.isNull = true) ∧
    (fieldIndex resultFields m.1 = some 1 → m.2.isArray = true ∨ m.2.isNull = true)

/-- A bucket in which every key holds the empty JSON object. -/
def emptyObjects : GoString → GoString → Bytes × Option GoError :=
  fun _ _ => (str "\x7b\x7d", none)

/-- The six strings `strconv.ParseBool` reads as `true`. -/
def trueSpellings : List GoString :=
  [str "1", str "t", str "T", str "TRUE", str "true", str "True"]

/-- An environment with `ONLY_THIS_MONTH=true` and the path format
`data/%04d/%02d.json`. -/
def onlyThisMonthEnv : GoString → GoString :=
  fun name =>
    if name = str "ONLY_THIS_MONTH" then str "true"
    else if name = str "S3_PATH_FORMAT" then str "data/%04d/%02d.json"
    else []

/-- A clock whose first reading is the last nanosecond of 2021 and whose later
readings are the first instant of 2022. -/
def newYearClock : Nat → Time :=
  fun reads => if reads = 0 then Time.Date 2021 12 31 23 59 59 999999999
    else Time.Date 2022 1 1 0 0 0 0

/-- The inputs of the puts of a run over `paths` in a world whose objects are
`objects`, whose sessions open and whose puts succeed: those of the paths before
the first one whose fetch or decode fails. -/
def recordsOf (Getenv : GoString → GoString)
    (objects : GoString → GoString → Bytes × Option GoError) : List GoString → List PutItemInput
  | [] => []
  | p :: paths =>
    match objects (config.GetS3Bucket Getenv) p with
    | (_, some _) => []
    | (data, none) =>
      match Unmarshal data {} with
      | (_, some _) => []
      | (result, none) =>
        StoreDataForDynamo.param Getenv data result :: recordsOf Getenv objects paths

/-! ## Properties of the time model -/

theorem daysIn_ge (year month : Int) : 28 ≤ daysIn year month := by
  unfold daysIn
  split
  · split <;> omega
  · split <;> omega

theorem monthNanos_pos (idx : Int) : 0 < monthNanos idx := by
  unfold monthNanos nanosPerDay
  have := daysIn_ge (idx / 12) (idx % 12 + 1)
  positivity

theorem Time.carry_zero (idx : Int) : Time.carry 1 idx 0 = ⟨idx, 0⟩ := by
  have h := monthNanos_pos idx
  simp only [Time.carry]
  rw [if_neg (by omega), if_neg (by omega)]
  rfl

/-- Local midnight on the 1st of a month is the start of the month with that index. -/
theorem Time.Date_first (year month : Int) :
    Time.Date year month 1 0 0 0 0 = ⟨12 * year + (month - 1), 0⟩ := by
  have h : Time.carryFuel 0 = 1 := by decide
  simp only [Time.Date, sub_self, zero_mul, add_zero, mul_zero, h]
  exact Time.carry_zero _

/-- One month after the start of a month is the start of the next month. -/
theorem Time.AddDate_first (idx : Int) :
    Time.AddDate ⟨idx, 0⟩ 0 1 0 = ⟨idx + 1, 0⟩ := by
  have h : Time.carryFuel 0 = 1 := by decide
  simp only [Time.AddDate, Nat.cast_zero, zero_mul, add_zero, mul_zero, h]
  exact Time.carry_zero _

theorem Time.carry_of_normal (fuel : Nat) (idx off : Int) (h0 : 0 ≤ off)
    (h1 : off < monthNanos idx) : Time.carry fuel idx off = ⟨idx, off.toNat⟩ := by
  cases fuel with
  | zero => rfl
  | succ n =>
    simp only [Time.carry]
    rw [if_neg (by omega), if_neg (by omega)]

/-- The fuel `Time.carryFuel` gives is enough: the time that comes out has its
offset inside its month. -/
theorem Time.carry_normalized (fuel : Nat) :
    ∀ (idx off : Int), off.natAbs / (28 * nanosPerDay) < fuel →
      (Time.carry fuel idx off).offset < monthNanos (Time.carry fuel idx off).monthIndex := by
  induction fuel with
  | zero => intro idx off h; exact absurd h (Nat.not_lt_zero _)
  | succ n ih =>
    intro idx off h
    have hlen : ∀ i : Int, 28 * nanosPerDay ≤ monthNanos i := by
      intro i
      unfold monthNanos
      exact Nat.mul_le_mul_right _ (daysIn_ge _ _)
    have hpos : 0 < 28 * nanosPerDay := by decide
    simp only [Time.carry]
    split
    · rename_i hneg
      by_cases h2 : 0 ≤ off + (monthNanos (idx - 1) : Int)
      · rw [Time.carry_of_normal n _ _ h2 (by omega)]
        simp only
        omega
      · apply ih
        have hl := hlen (idx - 1)
        have e1 : (off + (monthNanos (idx - 1) : Int)).natAbs + monthNanos (idx - 1) =
            off.natAbs := by omega
        have : (off + (monthNanos (idx - 1) : Int)).natAbs + 28 * nanosPerDay ≤ off.natAbs := by
          omega
        have h3 := Nat.div_le_div_right (c := 28 * nanosPerDay) this
        rw [Nat.add_div_right _ hpos] at h3
        omega
    · split
      · rename_i hnn hge
        apply ih
        have hl := hlen idx
        have : (off - (monthNanos idx : Int)).natAbs + 28 * nanosPerDay ≤ off.natAbs := by omega
        have h3 := Nat.div_le_div_right (c := 28 * nanosPerDay) this
        rw [Nat.add_div_right _ hpos] at h3
        omega
      · simp only
        omega

/-- The result of `time.Date` is a time inside its month, whatever the arguments. -/
theorem Time.Date_normalized (year month day hour min sec nsec : Int) :
    (Time.Date year month day hour min sec nsec).offset <
      monthNanos (Time.Date year month day hour min sec nsec).monthIndex := by
  unfold Time.Date
  exact Time.carry_normalized _ _ _ (by unfold Time.carryFuel; omega)

/-- The year and month of local midnight on the 1st of month `month` of `year`. -/
theorem Time.Date_first_Year_Month (year month : Int) (h1 : 1 ≤ month) (h12 : month ≤ 12) :
    (Time.Date year month 1 0 0 0 0).Year = year ∧
      (Time.Date year month 1 0 0 0 0).Month = month := by
  rw [Time.Date_first]
  simp only [Time.Year, Time.Month]
  omega

theorem Time.Before_first (idx : Int) (stop : Time) :
    Time.Before ⟨idx, 0⟩ stop = true ↔ 0 < monthsBefore stop idx := by
  simp only [Time.Before, monthsBefore, Bool.or_eq_true, Bool.and_eq_true, decide_eq_true_eq]
  split <;> omega

theorem monthsFrom_succ (idx : Int) (n : Nat) :
    monthsFrom idx (n + 1) = monthOfIndex idx :: monthsFrom (idx + 1) n := by
  simp only [monthsFrom, List.range_succ_eq_map, List.map_cons, List.map_map]
  congr 1
  · simp
  · apply List.map_congr_left
    intro k _
    simp only [Function.comp, Nat.cast_succ]
    congr 1
    ring

/-- The loop started at the beginning of a month appends the months that begin
strictly before `stop`. -/
theorem GetTargetDateList.loop_first (stop : Time) (n : Nat) :
    ∀ (idx : Int) (acc : List TargetDate), monthsBefore stop idx = n →
      GetTargetDateList.loop stop ⟨idx, 0⟩ acc = acc ++ monthsFrom idx n := by
  induction n with
  | zero =>
    intro idx acc h
    rw [GetTargetDateList.loop]
    have hb : ¬ Time.Before ⟨idx, 0⟩ stop = true := by
      rw [Time.Before_first]; omega
    simp [hb, monthsFrom]
  | succ n ih =>
    intro idx acc h
    rw [GetTargetDateList.loop]
    have hb : Time.Before ⟨idx, 0⟩ stop = true := by
      rw [Time.Before_first]; omega
    have hn : monthsBefore stop (idx + 1) = n := by
      unfold monthsBefore at h ⊢
      split at h <;> simp_all <;> omega
    rw [if_pos hb, Time.AddDate_first, ih _ _ hn, monthsFrom_succ]
    simp [monthOfIndex, Time.Year, Time.Month]

/-- The list `GetTargetDateList` returns, in closed form. -/
theorem GetTargetDateList_eq {W : Type} (O : Outside W) (r : Run W) :
    (GetTargetDateList O r).1 = monthsFrom epochIndex (monthsBefore (O.Now r.world).1 epochIndex) := by
  simp only [GetTargetDateList, timeNow, Time.Date_first]
  rw [GetTargetDateList.loop_first _ _ _ _ rfl]
  simp [epochIndex]

/-! ## GetTargetDateList -/

theorem mem_monthsFrom (idx : Int) (n : Nat) (d : TargetDate) :
    d ∈ monthsFrom idx n ↔ ∃ k : Nat, k < n ∧ monthOfIndex (idx + k) = d := by
  simp [monthsFrom]

theorem monthOfIndex_injective (i j : Int) (h : monthOfIndex i = monthOfIndex j) : i = j := by
  simp only [monthOfIndex, TargetDate.mk.injEq] at h
  omega

theorem monthsFrom_nodup (idx : Int) (n : Nat) : (monthsFrom idx n).Nodup := by
  unfold monthsFrom
  refine List.Nodup.map ?_ (List.nodup_range n)
  intro a b h
  have := monthOfIndex_injective _ _ h
  omega

theorem monthsFrom_chain (idx : Int) (n : Nat) :
    List.Chain' (fun a b : TargetDate => 12 * b.Year + (b.Month - 1) = 12 * a.Year + (a.Month - 1) + 1)
      (monthsFrom idx n) := by
  induction n generalizing idx with
  | zero => simp [monthsFrom]
  | succ n ih =>
    rw [monthsFrom_succ]
    cases n with
    | zero => simp [monthsFrom]
    | succ n =>
      have h := ih (idx + 1)
      rw [monthsFrom_succ] at h ⊢
      refine List.Chain'.cons ?_ h
      simp only [monthOfIndex]
      omega

/-- C2 as stated fails.  With the clock at 2021-08-15 the list is June, July and
August 2021: the month that contains `now` is in it, and the list is not
`[(2021,6), (2021,7)]`. -/
theorem GetTargetDateList_includes_current_month_2021_08_15 :
    (GetTargetDateList (cloud noEnv (fun _ => Time.Date 2021 8 15 0 0 0 0) noObjects) Run.start).1
        = [⟨2021, 6⟩, ⟨2021, 7⟩, ⟨2021, 8⟩] ∧
      ((GetTargetDateList (cloud noEnv (fun _ => Time.Date 2021 8 15 0 0 0 0) noObjects) Run.start).1
        == [⟨2021, 6⟩, ⟨2021, 7⟩]) = false := by
  rw [GetTargetDateList_eq]
  decide

/-- C2, amended.  For every clock reading `now`, `GetTargetDateList` returns the
consecutive months from June 2021 on, in ascending order: up to and including
the month that contains `now` when `now` is later than local midnight on the 1st
of its month, and up to the month before when `now` is exactly that midnight. -/
theorem GetTargetDateList_through_current_month {W : Type} (O : Outside W) (r : Run W) :
    ((O.Now r.world).1.offset ≠ 0 →
        (GetTargetDateList O r).1 =
          monthsFrom epochIndex ((O.Now r.world).1.monthIndex + 1 - epochIndex).toNat ∧
        (epochIndex ≤ (O.Now r.world).1.monthIndex →
          (GetTargetDateList O r).1.getLast? =
            some ⟨(O.Now r.world).1.Year, (O.Now r.world).1.Month⟩)) ∧
      ((O.Now r.world).1.offset = 0 →
        (GetTargetDateList O r).1 =
          monthsFrom epochIndex ((O.Now r.world).1.monthIndex - epochIndex).toNat) := by
  rw [GetTargetDateList_eq]
  refine ⟨fun h => ⟨by simp [monthsBefore, h], fun hle => ?_⟩, fun h => by simp [monthsBefore, h]⟩
  simp only [monthsBefore, h, if_false]
  obtain ⟨n, hn⟩ : ∃ n : Nat, ((O.Now r.world).1.monthIndex + 1 - epochIndex).toNat = n + 1 :=
    ⟨((O.Now r.world).1.monthIndex - epochIndex).toNat, by omega⟩
  rw [hn]
  simp only [monthsFrom, List.range_succ, List.map_append, List.map_cons, List.map_nil,
    List.getLast?_append, List.getLast?_singleton, monthOfIndex, Time.Year, Time.Month]
  have : epochIndex + (n : Int) = (O.Now r.world).1.monthIndex := by omega
  rw [this]
  rfl

/-- The amended C2 at the clock reading 2021-08-15: June, July and August 2021. -/
theorem GetTargetDateList_through_current_month_witness :
    (GetTargetDateList (cloud noEnv (fun _ => Time.Date 2021 8 15 0 0 0 0) noObjects) Run.start).1
      = [⟨2021, 6⟩, ⟨2021, 7⟩, ⟨2021, 8⟩] :=
  ((GetTargetDateList_through_current_month
    (cloud noEnv (fun _ => Time.Date 2021 8 15 0 0 0 0) noObjects) Run.start).1 (by decide)).1.trans
    (by decide)

/-- C9.  The loop of `GetTargetDateList` terminates (the function is total), and
for every clock reading `now` a month `(y, m)` is in the result exactly when it is
at or after `(2021, 6)` and local midnight on its 1st is strictly before `now`;
the result has no repetition, lists consecutive months in ascending order, has
every `Month` in 1..12, and is empty when `now` is not after 2021-06-01 00:00. -/
theorem GetTargetDateList_spec {W : Type} (O : Outside W) (r : Run W) :
    (∀ d : TargetDate, d ∈ (GetTargetDateList O r).1 ↔
        (1 ≤ d.Month ∧ d.Month ≤ 12) ∧ (2021 < d.Year ∨ (d.Year = 2021 ∧ 6 ≤ d.Month)) ∧
          (Time.Date d.Year d.Month 1 0 0 0 0).Before (O.Now r.world).1 = true) ∧
      (GetTargetDateList O r).1.Nodup ∧
      List.Chain' (fun a b : TargetDate =>
        12 * b.Year + (b.Month - 1) = 12 * a.Year + (a.Month - 1) + 1) (GetTargetDateList O r).1 ∧
      (∀ d ∈ (GetTargetDateList O r).1, 1 ≤ d.Month ∧ d.Month ≤ 12) ∧
      ((Time.Date 2021 6 1 0 0 0 0).Before (O.Now r.world).1 = false →
        (GetTargetDateList O r).1 = []) := by
  rw [GetTargetDateList_eq]
  have hmem : ∀ d : TargetDate, d ∈ monthsFrom epochIndex (monthsBefore (O.Now r.world).1 epochIndex) ↔
      (1 ≤ d.Month ∧ d.Month ≤ 12) ∧ (2021 < d.Year ∨ (d.Year = 2021 ∧ 6 ≤ d.Month)) ∧
        (Time.Date d.Year d.Month 1 0 0 0 0).Before (O.Now r.world).1 = true := by
    intro d
    rw [mem_monthsFrom, Time.Date_first]
    simp only [Time.Before, monthsBefore, epochIndex, Bool.or_eq_true, Bool.and_eq_true,
      decide_eq_true_eq, monthOfIndex]
    constructor
    · rintro ⟨k, hk, rfl⟩
      simp only
      split at hk <;> omega
    · rintro ⟨⟨h1, h2⟩, h3, h4⟩
      refine ⟨(12 * d.Year + (d.Month - 1) - (12 * 2021 + (6 - 1))).toNat, ?_, ?_⟩
      · split <;> omega
      · have e : (12 * 2021 + (6 - 1) : Int) +
            ((12 * d.Year + (d.Month - 1) - (12 * 2021 + (6 - 1))).toNat : Int) =
            12 * d.Year + (d.Month - 1) := by omega
        rw [e]
        cases d with
        | mk y m =>
          simp only [TargetDate.mk.injEq] at *
          omega
  refine ⟨hmem, monthsFrom_nodup _ _, monthsFrom_chain _ _, fun d hd => ((hmem d).1 hd).1, ?_⟩
  intro h
  have h0 : monthsBefore (O.Now r.world).1 epochIndex = 0 := by
    rw [Time.Date_first] at h
    have := (Time.Before_first (12 * 2021 + (6 - 1)) (O.Now r.world).1).not
    simp only [h, Bool.false_eq_true, not_false_eq_true, true_iff] at this
    simpa [epochIndex] using this
  simp [h0, monthsFrom]

/-! ## Sprintf and CreateTargetPath -/

theorem doPrintf_text (lit format : GoString) (a : List Int) (h : byte '%' ∉ lit) :
    doPrintf .text (lit ++ format) a = (doPrintf .text format a).map (fun out => lit ++ out) := by
  induction lit with
  | nil => simp
  | cons c lit ih =>
    have hc : c ≠ byte '%' := fun e => h (by simp [e])
    have hl : byte '%' ∉ lit := fun e => h (by simp [e])
    simp only [List.cons_append, doPrintf, List.append_eq, if_neg hc, ih hl, Option.map_map]
    rfl

theorem doPrintf_flags (fl format : GoString) (f : fmtFlags) (a : List Int)
    (h : ∀ c ∈ fl, c ∈ flagBytes) :
    doPrintf (.flags f) (fl ++ format) a = doPrintf (.flags (fl.foldl applyFlag f)) format a := by
  induction fl generalizing f with
  | nil => simp
  | cons c fl ih =>
    have hc : c ∈ flagBytes := h c (by simp)
    have hl : ∀ c ∈ fl, c ∈ flagBytes := fun c hc => h c (by simp [hc])
    simp only [List.cons_append, List.foldl_cons]
    rw [← ih _ hl]
    simp only [flagBytes, List.mem_cons, List.mem_singleton, List.not_mem_nil, or_false] at hc
    rcases hc with rfl | rfl | rfl | rfl | rfl <;> rfl

theorem doPrintf_width (ds format : GoString) (f : fmtFlags) (a : List Int) (num k : Nat)
    (hd : ∀ c ∈ ds, isDigit c = true) (hn : num < 10 ^ k) (hk : k + ds.length ≤ 7) :
    doPrintf (.width f num) (ds ++ format) a =
      doPrintf (.width f (ds.foldl (fun n c => n * 10 + (c.toNat - 48)) num)) format a := by
  induction ds generalizing num k with
  | nil => simp
  | cons c ds ih =>
    have hc : byte '0' ≤ c ∧ c ≤ byte '9' := by
      have := hd c (by simp)
      simpa [isDigit] using this
    have hl : ∀ c ∈ ds, isDigit c = true := fun c hc => hd c (by simp [hc])
    simp only [List.length_cons] at hk
    have hk6 : k ≤ 6 := by omega
    have hnum : ¬ 1000000 < num := by
      have : 10 ^ k ≤ 10 ^ 6 := Nat.pow_le_pow_right (by decide) hk6
      omega
    have hc9 : c.toNat - 48 ≤ 9 := by
      have h9 : c.toNat ≤ (byte '9').toNat := hc.2
      have : (byte '9').toNat = 57 := by decide
      omega
    simp only [List.cons_append, List.foldl_cons, doPrintf, if_pos hc, if_neg hnum]
    exact ih (num * 10 + (c.toNat - 48)) (k + 1) hl (by rw [pow_succ]; omega) (by omega)

theorem isDigit_iff (c : UInt8) : isDigit c = true ↔ byte '0' ≤ c ∧ c ≤ byte '9' := by
  simp [isDigit]

/-- A well-formed slot at the front of the format consumes one operand and writes
it as the slot says. -/
theorem doPrintf_slot (s : Slot) (format : GoString) (v : Int) (a : List Int)
    (h : s.wellFormed) :
    doPrintf .text (s.text ++ format) (v :: a) =
      (doPrintf .text format a).map (fun out => s.subst v ++ out) := by
  obtain ⟨hf, hd, h0, hlen⟩ := h
  have hd' : byte 'd' ≠ byte '%' := by decide
  simp only [Slot.text, List.cons_append, List.append_assoc, doPrintf, List.append_eq, if_true]
  rw [doPrintf_flags _ _ _ _ hf]
  cases hw : s.width with
  | nil =>
    simp only [List.nil_append, List.cons_append, doPrintf, Slot.subst, hw, digitsVal,
      List.foldl_nil, List.isEmpty_nil, Bool.not_true]
    rw [if_neg (by decide), if_neg (by decide), if_neg (by decide), if_neg (by decide),
      if_neg (by decide), if_neg (by decide)]
    simp only [fmtVerb, if_neg hd', if_true]
  | cons c ds =>
    rw [hw] at hd h0 hlen
    have hc : byte '0' ≤ c ∧ c ≤ byte '9' := (isDigit_iff c).1 (hd c (by simp))
    have hc0 : c ≠ byte '0' := by
      intro e; apply h0; simp [e]
    have hl : ∀ c ∈ ds, isDigit c = true := fun c hc => hd c (by simp [hc])
    have h1 : byte '1' ≤ c ∧ c ≤ byte '9' := by
      refine ⟨?_, hc.2⟩
      have h0' : (byte '0').toNat ≤ c.toNat := hc.1
      have hne : c.toNat ≠ (byte '0').toNat := fun e => hc0 (UInt8.toNat.inj e)
      have e0 : (byte '0').toNat = 48 := by decide
      have e1 : (byte '1').toNat = 49 := by decide
      show (byte '1').toNat ≤ c.toNat
      omega
    have hc9 : c.toNat - 48 < 10 ^ 1 := by
      have h9 : c.toNat ≤ (byte '9').toNat := hc.2
      have : (byte '9').toNat = 57 := by decide
      omega
    have n1 : c ≠ byte '#' := by rintro rfl; exact absurd h1 (by decide)
    have n2 : c ≠ byte '+' := by rintro rfl; exact absurd h1 (by decide)
    have n3 : c ≠ byte '-' := by rintro rfl; exact absurd h1 (by decide)
    have n4 : c ≠ byte ' ' := by rintro rfl; exact absurd h1 (by decide)
    simp only [List.cons_append, List.nil_append, doPrintf, List.append_eq, if_neg n1, if_neg hc0,
      if_neg n2, if_neg n3, if_neg n4, if_pos h1]
    simp only [List.length_cons] at hlen
    rw [doPrintf_width ds _ _ _ _ 1 hl hc9 (by omega)]
    simp only [doPrintf, Slot.subst, hw, digitsVal, List.foldl_cons, List.isEmpty_cons,
      Bool.not_false, zero_mul, zero_add]
    rw [if_neg (by decide)]
    simp only [fmtVerb, if_neg hd', if_true]

/-- `Sprintf` on a template with two well-formed slots and two operands. -/
theorem Sprintf_template2 (lit0 : GoString) (s1 : Slot) (lit1 : GoString) (s2 : Slot)
    (lit2 : GoString) (year month : Int)
    (h0 : byte '%' ∉ lit0) (h1 : byte '%' ∉ lit1) (h2 : byte '%' ∉ lit2)
    (hs1 : s1.wellFormed) (hs2 : s2.wellFormed) :
    Sprintf (template2 lit0 s1 lit1 s2 lit2) [year, month] =
      some (template2.subst lit0 s1 lit1 s2 lit2 year month) := by
  have e2 : doPrintf .text lit2 [] = some lit2 := by
    have := doPrintf_text lit2 [] [] h2
    simpa [doPrintf, extraArgs] using this
  simp only [Sprintf, template2, template2.subst, List.append_assoc]
  rw [doPrintf_text _ _ _ h0, doPrintf_slot _ _ _ _ hs1, doPrintf_text _ _ _ h1,
    doPrintf_slot _ _ _ _ hs2, e2]
  simp

theorem CreateTargetPath.loop_eq (Getenv : GoString → GoString) (g : TargetDate → GoString)
    (h : ∀ d : TargetDate, Sprintf (config.GetS3PathFormat Getenv) [d.Year, d.Month] = some (g d))
    (targetDate : List TargetDate) (paths : List GoString) :
    CreateTargetPath.loop Getenv targetDate paths = some (paths ++ targetDate.map g) := by
  induction targetDate generalizing paths with
  | nil => simp [CreateTargetPath.loop]
  | cons d ds ih => simp [CreateTargetPath.loop, h d, ih]

/-- C5.  For a template with two well-formed numeric slots, `CreateTargetPath`
returns one path per date, in the order of the dates: the template with the
date's `Year` in the first slot and its `Month` in the second. -/
theorem CreateTargetPath_spec (Getenv : GoString → GoString) (lit0 : GoString) (s1 : Slot)
    (lit1 : GoString) (s2 : Slot) (lit2 : GoString) (targetDate : List TargetDate)
    (hfmt : config.GetS3PathFormat Getenv = template2 lit0 s1 lit1 s2 lit2)
    (h0 : byte '%' ∉ lit0) (h1 : byte '%' ∉ lit1) (h2 : byte '%' ∉ lit2)
    (hs1 : s1.wellFormed) (hs2 : s2.wellFormed) :
    CreateTargetPath Getenv targetDate =
        some (targetDate.map (fun d => template2.subst lit0 s1 lit1 s2 lit2 d.Year d.Month)) ∧
      ∀ paths, CreateTargetPath Getenv targetDate = some paths →
        paths.length = targetDate.length ∧
        ∀ i (hi : i < targetDate.length), paths[i]? =
          some (template2.subst lit0 s1 lit1 s2 lit2 targetDate[i].Year targetDate[i].Month) := by
  have e : CreateTargetPath Getenv targetDate =
      some (targetDate.map (fun d => template2.subst lit0 s1 lit1 s2 lit2 d.Year d.Month)) := by
    unfold CreateTargetPath
    rw [CreateTargetPath.loop_eq Getenv
      (fun d => template2.subst lit0 s1 lit1 s2 lit2 d.Year d.Month)]
    · simp
    · intro d
      rw [hfmt]
      exact Sprintf_template2 lit0 s1 lit1 s2 lit2 d.Year d.Month h0 h1 h2 hs1 hs2
  refine ⟨e, ?_⟩
  intro paths hp
  rw [e] at hp
  cases hp
  refine ⟨by simp, fun i hi => ?_⟩
  simp [List.getElem?_map, List.getElem?_eq_getElem hi]

/-- C5 at the template `data/%04d/%02d.json` and the date (2021, 6): the one path
`data/2021/06.json`. -/
theorem CreateTargetPath_spec_witness :
    CreateTargetPath (fun _ => str "data/%04d/%02d.json") [⟨2021, 6⟩] =
      some [str "data/2021/06.json"] :=
  (CreateTargetPath_spec (fun _ => str "data/%04d/%02d.json")
    (str "data/") ⟨str "0", str "4"⟩ (str "/") ⟨str "0", str "2"⟩ (str ".json") [⟨2021, 6⟩]
    (by decide) (by decide) (by decide) (by decide) (by decide) (by decide)).1.trans (by decide)

/-! ## StoreStockDataFromS3 -/

theorem StoreStockDataFromS3_cons {W : Type} (O : Outside W) (p : GoString) (ps : List GoString)
    (r : Run W) :
    StoreStockDataFromS3 O (p :: ps) r =
      match storeOne O p r with
      | (some err, r1) => (some err, r1)
      | (none, r1) => StoreStockDataFromS3 O ps r1 := by
  simp only [storeOne, StoreStockDataFromS3]
  rcases GetFileDataFromS3 O (config.GetS3Bucket O.Getenv) p r with ⟨⟨data, _ | e⟩, r1⟩
  · simp only
    rcases Unmarshal data {} with ⟨result, _ | e⟩
    · simp only
      rcases StoreDataForDynamo O data result r1 with ⟨_ | e, r2⟩ <;> rfl
    · rfl
  · rfl

/-- What one pass through the loop body does, by outcome: the log grows by the
calls made, and either the pass succeeds, with one fetch and one put of the
record of the fetched bytes, or it fails with the error of the failing step and
no record written. -/
theorem storeOne_log {W : Type} (O : Outside W) (p : GoString) (r : Run W) :
    ∃ d, (storeOne O p r).2.log = r.log ++ d ∧ fetches d <+: [p] ∧
      (((storeOne O p r).1 = none ∧ ∃ data, fetched d = [(p, data)] ∧ fetches d = [p] ∧
          (Unmarshal data {}).2 = none ∧ putsIssued d = [recordOf O.Getenv data] ∧
          putsDone d = [recordOf O.Getenv data]) ∨
        (∃ e, (storeOne O p r).1 = some e ∧ putsDone d = [] ∧
          ((GetFileDataFromS3 O (config.GetS3Bucket O.Getenv) p r).1.2 = some e ∧ putsIssued d = [] ∧
              fetched d = [] ∨
           (GetFileDataFromS3 O (config.GetS3Bucket O.Getenv) p r).1.2 = none ∧
            ((Unmarshal (GetFileDataFromS3 O (config.GetS3Bucket O.Getenv) p r).1.1 {}).2 = some e ∧
                putsIssued d = [] ∨
             (Unmarshal (GetFileDataFromS3 O (config.GetS3Bucket O.Getenv) p r).1.1 {}).2 = none ∧
              (StoreDataForDynamo O (GetFileDataFromS3 O (config.GetS3Bucket O.Getenv) p r).1.1
                (Unmarshal (GetFileDataFromS3 O (config.GetS3Bucket O.Getenv) p r).1.1 {}).1
                (GetFileDataFromS3 O (config.GetS3Bucket O.Getenv) p r).2).1 = some e)))) := by
  simp only [storeOne, StoreStockDataFromS3, GetFileDataFromS3, sessionNewSession, s3GetObject,
    StoreDataForDynamo, dynamodbPutItem, StoreDataForDynamo.param, config.GetDatabaseName,
    recordOf]
  rcases h1 : O.NewSession ApNortheast1RegionID r.world with ⟨_ | e1, w1⟩
  · simp only
    rcases h2 : O.GetObject (config.GetS3Bucket O.Getenv) p w1 with ⟨⟨data, _ | e2⟩, w2⟩
    · simp only
      rcases h3 : Unmarshal data {} with ⟨result, _ | e3⟩
      · simp only
        rcases h4 : O.NewSession ApNortheast1RegionID w2 with ⟨_ | e4, w4⟩
        · simp only
          rcases h5 : O.PutItem
              { TableName := O.Getenv (str "DATABASE_NAME"),
                Item := [(str "date", { S := result.CreatedAt }), (str "body", { S := data })] }
              w4 with ⟨_ | e5, w5⟩
          · refine ⟨_, by simp only [List.append_assoc]; rfl, ?_, ?_⟩
            · simp [fetches]
            · simp [fetched, fetches, putsIssued, putsDone, h3]
          · refine ⟨_, by simp only [List.append_assoc]; rfl, ?_, ?_⟩
            · simp [fetches]
            · simp [fetched, fetches, putsIssued, putsDone, h3]
        · refine ⟨_, by simp only [List.append_assoc]; rfl, ?_, ?_⟩
          · simp [fetches]
          · simp [fetched, fetches, putsIssued, putsDone, h3]
      · refine ⟨_, by simp only [List.append_assoc]; rfl, ?_, ?_⟩
        · simp [fetches]
        · simp [fetched, fetches, putsIssued, putsDone, h3]
    · refine ⟨_, by simp only [List.append_assoc]; rfl, ?_, ?_⟩
      · simp [fetches]
      · simp [fetched, fetches, putsIssued, putsDone]
  · refine ⟨_, rfl, ?_, ?_⟩
    · simp [fetches]
    · simp [fetched, fetches, putsIssued, putsDone]

theorem StoreStockDataFromS3_append {W : Type} (O : Outside W) (pre rest : List GoString)
    (r : Run W) :
    StoreStockDataFromS3 O (pre ++ rest) r =
      match StoreStockDataFromS3 O pre r with
      | (some err, r1) => (some err, r1)
      | (none, r1) => StoreStockDataFromS3 O rest r1 := by
  induction pre generalizing r with
  | nil => simp [StoreStockDataFromS3]
  | cons p pre ih =>
    rw [List.cons_append, StoreStockDataFromS3_cons, StoreStockDataFromS3_cons]
    rcases storeOne O p r with ⟨_ | e, r1⟩
    · exact ih r1
    · rfl

/-- A run that returns no error made one fetch per path, in path order, and after
each fetch one put, of the record of the bytes fetched; every put succeeded. -/
theorem StoreStockDataFromS3_ok_log {W : Type} (O : Outside W) (paths : List GoString)
    (r : Run W) (h : (StoreStockDataFromS3 O paths r).1 = none) :
    ∃ d, (StoreStockDataFromS3 O paths r).2.log = r.log ++ d ∧
      (fetched d).map Prod.fst = paths ∧ fetches d = paths ∧
      putsIssued d = (fetched d).map (fun kv => recordOf O.Getenv kv.2) ∧
      putsDone d = putsIssued d := by
  induction paths generalizing r with
  | nil => exact ⟨[], by simp [StoreStockDataFromS3, fetched, fetches, putsIssued, putsDone]⟩
  | cons p ps ih =>
    rw [StoreStockDataFromS3_cons] at h ⊢
    obtain ⟨d1, hd1, -, hcase⟩ := storeOne_log O p r
    rcases hs : storeOne O p r with ⟨_ | e, r1⟩
    · rw [hs] at h hd1 hcase
      simp only at h hd1 hcase ⊢
      obtain ⟨d2, hd2, hf2, hk2, hp2, hq2⟩ := ih r1 h
      rcases hcase with ⟨-, data, hf1, hk1, -, hp1, hq1⟩ | ⟨e, he, -⟩
      · refine ⟨d1 ++ d2, by rw [hd2, hd1, List.append_assoc], ?_⟩
        simp only [fetched, fetches, putsIssued, putsDone, List.filterMap_append] at *
        simp [hf1, hk1, hp1, hq1, hf2, hk2, hp2, hq2]
      · cases he
    · rw [hs] at h
      cases h

theorem storeOne_ok {W : Type} (O : Outside W) (p : GoString) (r : Run W)
    (hS : ∀ w, (O.NewSession ApNortheast1RegionID w).1 = none)
    (hG : ∀ w, (O.GetObject (config.GetS3Bucket O.Getenv) p w).1.2 = none)
    (hU : ∀ w, (Unmarshal (O.GetObject (config.GetS3Bucket O.Getenv) p w).1.1 {}).2 = none)
    (hP : ∀ input w, (O.PutItem input w).1 = none) :
    (storeOne O p r).1 = none := by
  simp only [storeOne, StoreStockDataFromS3, GetFileDataFromS3, sessionNewSession, s3GetObject,
    StoreDataForDynamo, dynamodbPutItem]
  have a1 := hS r.world
  rcases h1 : O.NewSession ApNortheast1RegionID r.world with ⟨_ | e1, w1⟩
  · simp only
    have a2 := hG w1
    have a3 := hU w1
    rcases h2 : O.GetObject (config.GetS3Bucket O.Getenv) p w1 with ⟨⟨data, _ | e2⟩, w2⟩
    · simp only
      rw [h2] at a3
      rcases h3 : Unmarshal data {} with ⟨result, _ | e3⟩
      · simp only
        have a4 := hS w2
        rcases h4 : O.NewSession ApNortheast1RegionID w2 with ⟨_ | e4, w4⟩
        · simp only
          have a5 := hP (StoreDataForDynamo.param O.Getenv data result) w4
          rcases h5 : O.PutItem (StoreDataForDynamo.param O.Getenv data result) w4 with ⟨_ | e5, w5⟩
          · rfl
          · rw [h5] at a5; cases a5
        · rw [h4] at a4; cases a4
      · rw [h3] at a3; cases a3
    · rw [h2] at a2; cases a2
  · rw [h1] at a1; cases a1

theorem StoreStockDataFromS3_ok {W : Type} (O : Outside W) (paths : List GoString) (r : Run W)
    (hS : ∀ w, (O.NewSession ApNortheast1RegionID w).1 = none)
    (hG : ∀ p ∈ paths, ∀ w, (O.GetObject (config.GetS3Bucket O.Getenv) p w).1.2 = none)
    (hU : ∀ p ∈ paths, ∀ w,
      (Unmarshal (O.GetObject (config.GetS3Bucket O.Getenv) p w).1.1 {}).2 = none)
    (hP : ∀ input w, (O.PutItem input w).1 = none) :
    (StoreStockDataFromS3 O paths r).1 = none := by
  induction paths generalizing r with
  | nil => rfl
  | cons p ps ih =>
    rw [StoreStockDataFromS3_cons]
    have h1 := storeOne_ok O p r hS (hG p (by simp)) (hU p (by simp)) hP
    rcases hs : storeOne O p r with ⟨_ | e, r1⟩
    · exact ih r1 (fun q hq => hG q (by simp [hq])) (fun q hq => hU q (by simp [hq]))
    · rw [hs] at h1; cases h1

theorem attr_recordOf (Getenv : GoString → GoString) (data : Bytes) :
    attr (recordOf Getenv data).Item (str "date") = some (Unmarshal data {}).1.CreatedAt ∧
      attr (recordOf Getenv data).Item (str "body") = some data := by
  have h : (str "body" == str "date") = false := by decide
  simp [attr, recordOf, List.lookup, h]

/-- C1.  When every session, fetch, decode and put succeeds, `StoreStockDataFromS3`
returns no error; it makes one fetch per path, in path order, and one put per
fetch, in the same order, and the item put after a fetch has `body` equal to the
bytes fetched, as they are, and `date` equal to the `created_at` that
`json.Unmarshal` decodes from those bytes.  Nothing is assumed of the bytes beyond
their decoding without error. -/
theorem StoreStockDataFromS3_all_succeed {W : Type} (O : Outside W) (paths : List GoString)
    (r : Run W)
    (hS : ∀ w, (O.NewSession ApNortheast1RegionID w).1 = none)
    (hG : ∀ p ∈ paths, ∀ w, (O.GetObject (config.GetS3Bucket O.Getenv) p w).1.2 = none)
    (hU : ∀ p ∈ paths, ∀ w,
      (Unmarshal (O.GetObject (config.GetS3Bucket O.Getenv) p w).1.1 {}).2 = none)
    (hP : ∀ input w, (O.PutItem input w).1 = none) :
    (StoreStockDataFromS3 O paths r).1 = none ∧
      ∃ d, (StoreStockDataFromS3 O paths r).2.log = r.log ++ d ∧
        (fetched d).map Prod.fst = paths ∧
        (putsIssued d).length = paths.length ∧
        putsDone d = putsIssued d ∧
        (putsIssued d).map (fun i => (attr i.Item (str "date"), attr i.Item (str "body"))) =
          (fetched d).map (fun kv => (some (Unmarshal kv.2 {}).1.CreatedAt, some kv.2)) ∧
        (putsIssued d).map (fun i => i.Item.map Prod.fst) =
          (fetched d).map (fun _ => [str "date", str "body"]) := by
  have h := StoreStockDataFromS3_ok O paths r hS hG hU hP
  obtain ⟨d, hd, hf, -, hp, hq⟩ := StoreStockDataFromS3_ok_log O paths r h
  refine ⟨h, d, hd, hf, ?_, hq, ?_, ?_⟩
  · rw [hp, List.length_map, ← hf, List.length_map]
  · rw [hp, List.map_map]
    apply List.map_congr_left
    intro kv _
    simp only [Function.comp, (attr_recordOf O.Getenv kv.2).1, (attr_recordOf O.Getenv kv.2).2]
  · rw [hp, List.map_map]
    apply List.map_congr_left
    intro kv _
    simp [recordOf]

/-- C1 at the specification's example: the payload fetched for one path is put as
one item whose `date` is `2024-05-01T00:00:00Z` and whose `body` is the payload. -/
theorem StoreStockDataFromS3_all_succeed_witness :
    (StoreStockDataFromS3 (cloud noEnv (fun _ => Time.Date 2024 5 15 0 0 0 0) sampleObjects)
        [str "data/2024/05.json"] Run.start).1 = none ∧
      putsIssued (StoreStockDataFromS3 (cloud noEnv (fun _ => Time.Date 2024 5 15 0 0 0 0)
        sampleObjects) [str "data/2024/05.json"] Run.start).2.log =
        [{ TableName := [],
           Item := [(str "date", { S := str "2024-05-01T00:00:00Z" }),
                    (str "body", { S := samplePayload })] }] :=
  ⟨(StoreStockDataFromS3_all_succeed
      (cloud noEnv (fun _ => Time.Date 2024 5 15 0 0 0 0) sampleObjects)
      [str "data/2024/05.json"] Run.start (fun _ => rfl) (fun _ _ _ => rfl)
      (fun _ _ _ => (by decide : (Unmarshal samplePayload {}).2 = none)) (fun _ _ => rfl)).1,
    by decide⟩

/-- C3.  Let the paths before `p` all be processed without error (`hpre`) and let
the processing of `p` fail with `e` (`hp`).  Then `StoreStockDataFromS3` returns
`e`, the error of the failing step as that step returned it, and stops in the
state of the failure.  The log has only grown: the fetches and the successful
puts of the earlier paths are there, one put per path in path order, each of the
record of the bytes fetched; no record was written for `p`, no put was even
issued for `p` when its fetch or its decode failed, and the fetches made are an
initial part of the paths up to `p`, so none was made for a later path. -/
theorem StoreStockDataFromS3_fail_fast {W : Type} (O : Outside W) (pre : List GoString)
    (p : GoString) (post : List GoString) (r r1 r2 : Run W) (e : GoError)
    (hpre : StoreStockDataFromS3 O pre r = (none, r1))
    (hp : storeOne O p r1 = (some e, r2)) :
    StoreStockDataFromS3 O (pre ++ p :: post) r = (some e, r2) ∧
      ((GetFileDataFromS3 O (config.GetS3Bucket O.Getenv) p r1).1.2 = some e ∨
        (Unmarshal (GetFileDataFromS3 O (config.GetS3Bucket O.Getenv) p r1).1.1 {}).2 = some e ∨
        (StoreDataForDynamo O (GetFileDataFromS3 O (config.GetS3Bucket O.Getenv) p r1).1.1
          (Unmarshal (GetFileDataFromS3 O (config.GetS3Bucket O.Getenv) p r1).1.1 {}).1
          (GetFileDataFromS3 O (config.GetS3Bucket O.Getenv) p r1).2).1 = some e) ∧
      ∃ d1 d2, r1.log = r.log ++ d1 ∧ r2.log = r1.log ++ d2 ∧
        (fetched d1).map Prod.fst = pre ∧
        putsDone d1 = (fetched d1).map (fun kv => recordOf O.Getenv kv.2) ∧
        putsIssued d1 = putsDone d1 ∧
        putsDone (d1 ++ d2) = putsDone d1 ∧
        (((GetFileDataFromS3 O (config.GetS3Bucket O.Getenv) p r1).1.2 = some e ∨
          (Unmarshal (GetFileDataFromS3 O (config.GetS3Bucket O.Getenv) p r1).1.1 {}).2 = some e) →
          putsIssued d2 = []) ∧
        fetches (d1 ++ d2) <+: pre ++ [p] := by
  have h1 : (StoreStockDataFromS3 O pre r).1 = none := by rw [hpre]
  obtain ⟨d1, hd1, hf1, hk1, hp1, hq1⟩ := StoreStockDataFromS3_ok_log O pre r h1
  obtain ⟨d2, hd2, hk2, hcase⟩ := storeOne_log O p r1
  rw [hpre] at hd1
  rw [hp] at hd2 hcase
  simp only at hd1 hd2 hcase
  refine ⟨?_, ?_, d1, d2, hd1, hd2, hf1, by rw [hq1, hp1], hq1.symm, ?_, ?_, ?_⟩
  · rw [StoreStockDataFromS3_append, hpre]
    simp only
    rw [StoreStockDataFromS3_cons, hp]
  · rcases hcase with ⟨h, -⟩ | ⟨e', he, -, hc⟩
    · cases h
    · cases he
      rcases hc with ⟨h, -⟩ | ⟨-, ⟨h, -⟩ | ⟨-, h⟩⟩
      · exact Or.inl h
      · exact Or.inr (Or.inl h)
      · exact Or.inr (Or.inr h)
  · rcases hcase with ⟨h, -⟩ | ⟨e', -, hq2, -⟩
    · cases h
    · simp only [putsDone, List.filterMap_append] at hq2 ⊢
      rw [hq2, List.append_nil]
  · rcases hcase with ⟨h, -⟩ | ⟨e', he, -, hc⟩
    · cases h
    · cases he
      rintro (hg | hu)
      · rcases hc with ⟨-, h, -⟩ | ⟨h, -⟩
        · exact h
        · rw [hg] at h; cases h
      · rcases hc with ⟨-, h, -⟩ | ⟨-, ⟨-, h⟩ | ⟨h, -⟩⟩
        · exact h
        · exact h
        · rw [hu] at h; cases h
  · simp only [fetches, List.filterMap_append] at hk1 hk2 ⊢
    rw [hk1]
    exact (List.prefix_append_right_inj pre).2 hk2

/-- C3 in a bucket where only `data/2021/06.json` exists, over the paths of June,
July and August 2021: the run returns the `NoSuchKey` error of the fetch of July. -/
theorem StoreStockDataFromS3_fail_fast_witness :
    StoreStockDataFromS3 (cloud noEnv (fun _ => Time.Date 2021 8 15 0 0 0 0) juneOnly)
        ([str "data/2021/06.json"] ++ str "data/2021/07.json" :: [str "data/2021/08.json"])
        Run.start =
      (some (.aws (str "NoSuchKey")),
        (storeOne (cloud noEnv (fun _ => Time.Date 2021 8 15 0 0 0 0) juneOnly)
          (str "data/2021/07.json")
          (StoreStockDataFromS3 (cloud noEnv (fun _ => Time.Date 2021 8 15 0 0 0 0) juneOnly)
            [str "data/2021/06.json"] Run.start).2).2) :=
  (StoreStockDataFromS3_fail_fast (cloud noEnv (fun _ => Time.Date 2021 8 15 0 0 0 0) juneOnly)
    [str "data/2021/06.json"] (str "data/2021/07.json") [str "data/2021/08.json"] Run.start
    (StoreStockDataFromS3 (cloud noEnv (fun _ => Time.Date 2021 8 15 0 0 0 0) juneOnly)
      [str "data/2021/06.json"] Run.start).2
    (storeOne (cloud noEnv (fun _ => Time.Date 2021 8 15 0 0 0 0) juneOnly)
      (str "data/2021/07.json")
      (StoreStockDataFromS3 (cloud noEnv (fun _ => Time.Date 2021 8 15 0 0 0 0) juneOnly)
        [str "data/2021/06.json"] Run.start).2).2
    (.aws (str "NoSuchKey"))
    (Prod.ext (by decide) rfl) (Prod.ext (by decide) rfl)).1

theorem storeOne_fetch_error {W : Type} (O : Outside W) (p : GoString) (r : Run W) (e : GoError)
    (h : (GetFileDataFromS3 O (config.GetS3Bucket O.Getenv) p r).1.2 = some e) :
    storeOne O p r = (some e, (GetFileDataFromS3 O (config.GetS3Bucket O.Getenv) p r).2) := by
  simp only [storeOne, StoreStockDataFromS3]
  rcases hg : GetFileDataFromS3 O (config.GetS3Bucket O.Getenv) p r with ⟨⟨data, _ | e2⟩, r1⟩
  · rw [hg] at h; cases h
  · rw [hg] at h; cases h; rfl

/-- C7 as stated fails.  In a bucket where June 2021 exists and July does not, the
run over June, July and August returns an error with exactly one record written,
not two. -/
theorem StoreStockDataFromS3_second_fetch_fails_one_record :
    (StoreStockDataFromS3 (cloud noEnv (fun _ => Time.Date 2021 8 15 0 0 0 0) juneOnly)
        [str "data/2021/06.json", str "data/2021/07.json", str "data/2021/08.json"]
        Run.start).1 = some (.aws (str "NoSuchKey")) ∧
      (putsDone (StoreStockDataFromS3 (cloud noEnv (fun _ => Time.Date 2021 8 15 0 0 0 0) juneOnly)
        [str "data/2021/06.json", str "data/2021/07.json", str "data/2021/08.json"]
        Run.start).2.log).length = 1 ∧
      (StoreStockDataFromS3 (cloud noEnv (fun _ => Time.Date 2021 8 15 0 0 0 0) juneOnly)
        [str "data/2021/06.json", str "data/2021/07.json", str "data/2021/08.json"]
        Run.start).2.world.store.length = 1 := by
  decide

/-- C7, amended.  Over three paths, when the first is fetched, decoded and put
without error and the fetch of the second fails with `e`, `StoreStockDataFromS3`
returns `e`; exactly one record has been written, the one of the first path, and
the only fetches attempted are of the first two paths, none of the third. -/
theorem StoreStockDataFromS3_second_fetch_fails {W : Type} (O : Outside W)
    (p1 p2 p3 : GoString) (r r1 : Run W) (e : GoError)
    (h1 : storeOne O p1 r = (none, r1))
    (h2 : (GetFileDataFromS3 O (config.GetS3Bucket O.Getenv) p2 r1).1.2 = some e) :
    (StoreStockDataFromS3 O [p1, p2, p3] r).1 = some e ∧
      ∃ d, (StoreStockDataFromS3 O [p1, p2, p3] r).2.log = r.log ++ d ∧
        (putsDone d).length = 1 ∧
        putsIssued d = putsDone d ∧
        putsDone d = (fetched d).map (fun kv => recordOf O.Getenv kv.2) ∧
        (fetched d).map Prod.fst = [p1] ∧
        fetches d <+: [p1, p2] := by
  have hs := storeOne_fetch_error O p2 r1 e h2
  have hrun : StoreStockDataFromS3 O [p1, p2, p3] r =
      (some e, (GetFileDataFromS3 O (config.GetS3Bucket O.Getenv) p2 r1).2) := by
    rw [StoreStockDataFromS3_cons, h1]
    simp only
    rw [StoreStockDataFromS3_cons, hs]
  obtain ⟨d1, hd1, -, hcase1⟩ := storeOne_log O p1 r
  obtain ⟨d2, hd2, hk2, hcase2⟩ := storeOne_log O p2 r1
  rw [h1] at hd1 hcase1
  rw [hs] at hd2 hcase2
  simp only at hd1 hd2
  rcases hcase1 with ⟨-, data, hf1, hk1, -, hp1, hq1⟩ | ⟨e1, he1, -⟩
  · rcases hcase2 with ⟨h, -⟩ | ⟨e2, -, hq2, ⟨-, hp2, hf2⟩ | ⟨h, -⟩⟩
    · cases h
    · refine ⟨by rw [hrun], d1 ++ d2, ?_, ?_, ?_, ?_, ?_, ?_⟩
      · rw [hrun]
        simp only
        rw [hd2, hd1, List.append_assoc]
      · simp only [putsDone, List.filterMap_append] at hq1 hq2 ⊢
        simp [hq1, hq2]
      · simp only [putsDone, putsIssued, List.filterMap_append] at hq1 hq2 hp1 hp2 ⊢
        rw [hq1, hq2, hp1, hp2]
      · simp only [putsDone, fetched, List.filterMap_append] at hq1 hq2 hf1 hf2 ⊢
        simp [hq1, hq2, hf1, hf2]
      · simp only [fetched, List.filterMap_append] at hf1 hf2 ⊢
        simp [hf1, hf2]
      · simp only [fetches, List.filterMap_append] at hk1 hk2 ⊢
        rw [hk1]
        exact (List.prefix_append_right_inj [p1]).2 hk2
    · rw [h2] at h; cases h
  · cases he1

/-- The amended C7 in a bucket where June 2021 exists and July does not: the run
over June, July and August fails with `NoSuchKey`. -/
theorem StoreStockDataFromS3_second_fetch_fails_witness :
    (StoreStockDataFromS3 (cloud noEnv (fun _ => Time.Date 2021 8 15 0 0 0 0) juneOnly)
        [str "data/2021/06.json", str "data/2021/07.json", str "data/2021/08.json"]
        Run.start).1 = some (.aws (str "NoSuchKey")) :=
  (StoreStockDataFromS3_second_fetch_fails
    (cloud noEnv (fun _ => Time.Date 2021 8 15 0 0 0 0) juneOnly)
    (str "data/2021/06.json") (str "data/2021/07.json") (str "data/2021/08.json") Run.start
    (storeOne (cloud noEnv (fun _ => Time.Date 2021 8 15 0 0 0 0) juneOnly)
      (str "data/2021/06.json") Run.start).2
    (.aws (str "NoSuchKey")) (Prod.ext (by decide) rfl) (by decide)).1

/-! ## json.Unmarshal into Result -/

theorem decodeString_flag (v : JSON) (old : GoString) (h : (decodeString v old).2 = false) :
    v.isString = true ∨ v.isNull = true := by
  cases v <;> simp_all [decodeString, JSON.isString, JSON.isNull]

theorem decodeBody_flag (v : JSON) (old : List Ticker) (h : (decodeBody v old).2 = false) :
    v.isArray = true ∨ v.isNull = true := by
  cases v <;> simp_all [decodeBody, JSON.isArray, JSON.isNull]

theorem decodeResultMember_flag (acc : Result × Bool) (m : GoString × JSON)
    (h : (decodeResultMember acc m).2 = false) :
    acc.2 = false ∧
      (fieldIndex resultFields m.1 = some 0 → m.2.isString = true ∨ m.2.isNull = true) ∧
      (fieldIndex resultFields m.1 = some 1 → m.2.isArray = true ∨ m.2.isNull = true) := by
  unfold decodeResultMember at h
  split at h
  · rename_i h0
    simp only [Bool.or_eq_false_iff] at h
    refine ⟨h.1, fun _ => decodeString_flag _ _ h.2, fun h1 => ?_⟩
    rw [h0] at h1; cases h1
  · rename_i h0
    simp only [Bool.or_eq_false_iff] at h
    refine ⟨h.1, fun h1 => ?_, fun _ => decodeBody_flag _ _ h.2⟩
    rw [h0] at h1; cases h1
  · rename_i h0 h1
    exact ⟨h, fun h2 => absurd h2 (h0 ), fun h2 => absurd h2 (h1 )⟩

theorem decodeResult_foldl_flag (members : List (GoString × JSON)) (acc : Result × Bool)
    (h : (members.foldl decodeResultMember acc).2 = false) :
    acc.2 = false ∧ ∀ m ∈ members,
      (fieldIndex resultFields m.1 = some 0 → m.2.isString = true ∨ m.2.isNull = true) ∧
      (fieldIndex resultFields m.1 = some 1 → m.2.isArray = true ∨ m.2.isNull = true) := by
  induction members generalizing acc with
  | nil => exact ⟨h, by simp⟩
  | cons m ms ih =>
    obtain ⟨h1, h2⟩ := ih (decodeResultMember acc m) h
    obtain ⟨h3, h4⟩ := decodeResultMember_flag acc m h1
    refine ⟨h3, ?_⟩
    intro x hx
    rcases List.mem_cons.1 hx with rfl | hx
    · exact h4
    · exact h2 x hx

/-- When `json.Unmarshal` returns no error, the bytes are JSON and the value is
acceptable for a `Result`. -/
theorem Unmarshal_ok_acceptable (data : Bytes) (old : Result)
    (h : (Unmarshal data old).2 = none) :
    ∃ v, parseJSON data = some v ∧ acceptableResult v := by
  unfold Unmarshal at h
  cases hp : parseJSON data with
  | none => rw [hp] at h; cases h
  | some v =>
    rw [hp] at h
    refine ⟨v, rfl, ?_⟩
    simp only [ite_eq_right_iff, reduceCtorEq, imp_false, Bool.not_eq_true] at h
    cases v with
    | null => exact Or.inl rfl
    | object members =>
      exact Or.inr ⟨members, rfl, (decodeResult_foldl_flag members (old, false) h).2⟩
    | bool b => simp [decodeResult] at h
    | number l => simp [decodeResult] at h
    | string s => simp [decodeResult] at h
    | array es => simp [decodeResult] at h

/-- C6 as stated fails.  `{}` and `{"created_at":"x"}` lack one or both fields and
decode without error, the missing fields staying at their zero values; for a
fetched `{}` a put is issued, with an empty `date`. -/
theorem Unmarshal_accepts_missing_fields :
    Unmarshal (str "\x7b\x7d") {} = ({ CreatedAt := [], Body := [] }, none) ∧
      Unmarshal (str "\x7b\"created_at\":\"x\"\x7d") {} = ({ CreatedAt := str "x", Body := [] }, none) ∧
      (StoreStockDataFromS3 (cloud noEnv (fun _ => Time.Date 2021 8 15 0 0 0 0) emptyObjects)
        [str "data/2021/06.json"] Run.start).1 = none ∧
      putsIssued (StoreStockDataFromS3 (cloud noEnv (fun _ => Time.Date 2021 8 15 0 0 0 0)
        emptyObjects) [str "data/2021/06.json"] Run.start).2.log =
        [{ TableName := [],
           Item := [(str "date", { S := [] }), (str "body", { S := str "\x7b\x7d" })] }] := by
  decide

/-- C6, amended.  The decode of fetched bytes into `Result` succeeds only if the
bytes are well-formed JSON whose value is `null` or an object in which every
`created_at` member is a string or `null` and every `body` member is an array or
`null`; neither field has to be present.  When the decode of the bytes fetched
for a path fails, `StoreStockDataFromS3` returns the decode error and no put is
issued for that path. -/
theorem Unmarshal_decode_spec {W : Type} (O : Outside W) (p : GoString) (r : Run W)
    (hfetch : (GetFileDataFromS3 O (config.GetS3Bucket O.Getenv) p r).1.2 = none) :
    (∀ data : Bytes, (Unmarshal data {}).2 = none →
        ∃ v, parseJSON data = some v ∧ acceptableResult v) ∧
      (∀ e, (Unmarshal (GetFileDataFromS3 O (config.GetS3Bucket O.Getenv) p r).1.1 {}).2 = some e →
        (storeOne O p r).1 = some e ∧
        ∃ d, (storeOne O p r).2.log = r.log ++ d ∧ putsIssued d = []) := by
  refine ⟨fun data h => Unmarshal_ok_acceptable data {} h, ?_⟩
  intro e he
  obtain ⟨d, hd, -, hcase⟩ := storeOne_log O p r
  rcases hcase with ⟨-, data, hf, -, hu, -⟩ | ⟨e', he', -, hc⟩
  · exfalso
    have hg := hfetch
    have hu' := he
    simp only [storeOne, StoreStockDataFromS3] at hd
    rcases hgf : GetFileDataFromS3 O (config.GetS3Bucket O.Getenv) p r with ⟨⟨data', _ | e2⟩, r1⟩
    · rw [hgf] at hu' hd
      simp only at hu' hd
      rcases hun : Unmarshal data' {} with ⟨result, _ | e3⟩
      · rw [hun] at hu'; cases hu'
      · rw [hun] at hd
        simp only at hd
        simp only [GetFileDataFromS3, sessionNewSession, s3GetObject] at hgf
        rcases hn : O.NewSession ApNortheast1RegionID r.world with ⟨_ | e1, w1⟩
        · rw [hn] at hgf
          simp only at hgf
          rcases ho : O.GetObject (config.GetS3Bucket O.Getenv) p w1 with ⟨⟨data2, _ | e4⟩, w2⟩
          · rw [ho] at hgf
            simp only [Prod.mk.injEq] at hgf
            obtain ⟨⟨rfl, -⟩, rfl⟩ := hgf
            simp only [List.append_assoc] at hd
            have hd' := List.append_cancel_left hd
            subst hd'
            simp only [fetched, List.filterMap_cons, List.filterMap_nil, List.cons.injEq,
              Prod.mk.injEq, and_true] at hf
            obtain ⟨-, rfl⟩ := hf
            rw [hun] at hu; cases hu
          · rw [ho] at hgf
            simp at hgf
        · rw [hn] at hgf
          simp at hgf
    · rw [hgf] at hg; cases hg
  · refine ⟨?_, d, hd, ?_⟩
    · rcases hc with ⟨h, -⟩ | ⟨-, ⟨h, -⟩ | ⟨h, -⟩⟩
      · rw [hfetch] at h; cases h
      · rw [he] at h; cases h; exact he'
      · rw [he] at h; cases h
    · rcases hc with ⟨h, -⟩ | ⟨-, ⟨-, h⟩ | ⟨h, -⟩⟩
      · rw [hfetch] at h; cases h
      · exact h
      · rw [he] at h; cases h

/-- The amended C6 on the specification's example payload: it decodes, so it parses
to an acceptable value. -/
theorem Unmarshal_decode_spec_witness :
    ∃ v, parseJSON samplePayload = some v ∧ acceptableResult v :=
  (Unmarshal_decode_spec (cloud noEnv (fun _ => Time.Date 2024 5 15 0 0 0 0) sampleObjects)
    (str "data/2024/05.json") Run.start rfl).1 samplePayload (by decide)

/-! ## The store -/

theorem Store.foldl_put (L : List PutItemInput) :
    ∃ C : Store,
      (∀ e ∈ C, ∃ i ∈ L,
        (e.1 == i.TableName && attr e.2 (str "date") == attr i.Item (str "date")) = true) ∧
      ∀ s : Store, L.foldl (fun s i => Store.put i s) s =
        C ++ s.filter (fun e => L.all (fun i =>
          !(e.1 == i.TableName && attr e.2 (str "date") == attr i.Item (str "date")))) := by
  induction L using List.reverseRecOn with
  | nil => exact ⟨[], by simp, by simp⟩
  | append_singleton L i ih =>
    obtain ⟨C, hC, hs⟩ := ih
    refine ⟨(i.TableName, i.Item) :: C.filter (fun e =>
      !(e.1 == i.TableName && attr e.2 (str "date") == attr i.Item (str "date"))), ?_, ?_⟩
    · intro e he
      rcases List.mem_cons.1 he with rfl | he
      · exact ⟨i, by simp, by simp⟩
      · obtain ⟨j, hj, hk⟩ := hC e (List.mem_filter.1 he).1
        exact ⟨j, by simp [hj], hk⟩
    · intro s
      rw [List.foldl_append, List.foldl_cons, List.foldl_nil, hs s, Store.put, List.filter_append,
        List.filter_filter, List.cons_append]
      congr 2
      apply List.filter_congr
      intro e _
      simp only [List.all_append, List.all_cons, List.all_nil, Bool.and_true]
      exact Bool.and_comm _ _

/-- Putting the same inputs a second time leaves the store as it is. -/
theorem Store.foldl_put_twice (L : List PutItemInput) (s : Store) :
    L.foldl (fun s i => Store.put i s) (L.foldl (fun s i => Store.put i s) s) =
      L.foldl (fun s i => Store.put i s) s := by
  obtain ⟨C, hC, hs⟩ := Store.foldl_put L
  rw [hs s, hs (C ++ _), List.filter_append, List.filter_filter]
  have h1 : C.filter (fun e => L.all (fun i =>
      !(e.1 == i.TableName && attr e.2 (str "date") == attr i.Item (str "date")))) = [] := by
    rw [List.filter_eq_nil_iff]
    intro e he
    obtain ⟨i, hi, hk⟩ := hC e he
    simp only [List.all_eq_true, Bool.not_eq_true', not_forall]
    exact ⟨i, hi, by simp [hk]⟩
  rw [h1, List.nil_append]
  congr 1
  apply List.filter_congr
  intro e _
  simp

/-- The items under a key after a put: the item put, when the key is its own, and
the items that were there otherwise. -/
theorem Store.get_put (input : PutItemInput) (store : Store) (table date : GoString) :
    Store.get (Store.put input store) table date =
      if (input.TableName == table && attr input.Item (str "date") == some date) = true then
        [input.Item]
      else Store.get store table date := by
  unfold Store.get Store.put
  by_cases h : (input.TableName == table && attr input.Item (str "date") == some date) = true
  · rw [if_pos h]
    simp only [List.filter_cons, h, if_true, List.map_cons, List.filter_filter]
    simp only [Bool.and_eq_true, beq_iff_eq] at h
    have : List.filter (fun a => (a.1 == table && attr a.2 (str "date") == some date) &&
        !(a.1 == input.TableName && attr a.2 (str "date") == attr input.Item (str "date")))
        store = [] := by
      rw [List.filter_eq_nil_iff]
      intro e _
      rw [h.1, h.2]
      cases (e.1 == table && attr e.2 (str "date") == some date) <;> simp
    rw [this]
    rfl
  · rw [if_neg h]
    simp only [List.filter_cons, h, if_false, List.filter_filter]
    congr 1
    apply List.filter_congr
    intro e _
    cases hk : (e.1 == table && attr e.2 (str "date") == some date)
    · simp
    · simp only [Bool.and_eq_true, beq_iff_eq] at hk
      simp only [Bool.true_and, Bool.not_eq_true', Bool.and_eq_false_iff, beq_eq_false_iff_ne,
        ne_eq]
      simp only [Bool.and_eq_true, beq_iff_eq, not_and] at h
      by_cases ht : input.TableName = table
      · right
        rw [hk.2]
        intro hd
        exact h ht hd.symm
      · left
        rw [hk.1]
        exact fun e => ht e.symm

/-- A key that holds one item still holds one item after further puts. -/
theorem Store.get_foldl_put_one (L : List PutItemInput) (table date : GoString) :
    ∀ store : Store, (Store.get store table date).length = 1 →
      (Store.get (L.foldl (fun s i => Store.put i s) store) table date).length = 1 := by
  induction L with
  | nil => intro store h; exact h
  | cons i L ih =>
    intro store h
    rw [List.foldl_cons]
    apply ih
    rw [Store.get_put]
    split
    · rfl
    · exact h

/-- After a sequence of puts, the key of each of them holds exactly one item. -/
theorem Store.get_foldl_put_mem (L : List PutItemInput) (table date : GoString)
    (input : PutItemInput) (hmem : input ∈ L) (ht : input.TableName = table)
    (hd : attr input.Item (str "date") = some date) :
    ∀ store : Store,
      (Store.get (L.foldl (fun s i => Store.put i s) store) table date).length = 1 := by
  induction L with
  | nil => cases hmem
  | cons i L ih =>
    intro store
    rw [List.foldl_cons]
    rcases List.mem_cons.1 hmem with rfl | hm
    · apply Store.get_foldl_put_one
      rw [Store.get_put, if_pos (by simp [ht, hd])]
      rfl
    · exact ih hm _

/-- What `StoreDataForDynamo` does in the concrete world: it opens a session and
issues the put of its `param`, which the store carries out whatever `holds` is. -/
theorem StoreDataForDynamo_conditionalCloud
    (holds : GoString → Option (List (GoString × AttributeValue)) → Bool)
    (Getenv : GoString → GoString) (clock : Nat → Time)
    (objects : GoString → GoString → Bytes × Option GoError) (data : Bytes) (result : Result)
    (r : Run Cloud) :
    StoreDataForDynamo (conditionalCloud holds Getenv clock objects) data result r =
      (none,
        { world := { reads := r.world.reads,
                     store := Store.put (StoreDataForDynamo.param Getenv data result) r.world.store },
          log := r.log ++ [.newSession ApNortheast1RegionID none] ++
            [.putItem (StoreDataForDynamo.param Getenv data result) none] }) := by
  rfl

/-- In the concrete world a run returns an error that does not depend on the state
it starts in, and leaves the store with the records of the run put in order. -/
theorem conditionalCloud_run
    (holds : GoString → Option (List (GoString × AttributeValue)) → Bool)
    (Getenv : GoString → GoString) (clock : Nat → Time)
    (objects : GoString → GoString → Bytes × Option GoError) (paths : List GoString) :
    ∃ err : Option GoError, ∀ r : Run Cloud,
      (StoreStockDataFromS3 (conditionalCloud holds Getenv clock objects) paths r).1 = err ∧
      (StoreStockDataFromS3 (conditionalCloud holds Getenv clock objects) paths r).2.world.store =
        (recordsOf Getenv objects paths).foldl (fun s i => Store.put i s) r.world.store := by
  induction paths with
  | nil => exact ⟨none, fun r => ⟨rfl, rfl⟩⟩
  | cons p ps ih =>
    obtain ⟨err, hL⟩ := ih
    rcases ho : objects (config.GetS3Bucket Getenv) p with ⟨data, _ | e⟩
    · rcases hu : Unmarshal data {} with ⟨result, _ | e⟩
      · refine ⟨err, fun r => ?_⟩
        have hg : GetFileDataFromS3 (conditionalCloud holds Getenv clock objects)
            (config.GetS3Bucket Getenv) p r =
            ((data, none), ⟨r.world, r.log ++ [.newSession ApNortheast1RegionID none] ++
                [.getObject (config.GetS3Bucket Getenv) p data none]⟩) := by
          simp only [GetFileDataFromS3, sessionNewSession, s3GetObject, conditionalCloud, ho]
        have hg' : GetFileDataFromS3 (conditionalCloud holds Getenv clock objects)
            (config.GetS3Bucket (conditionalCloud holds Getenv clock objects).Getenv) p r =
            ((data, none), ⟨r.world, r.log ++ [.newSession ApNortheast1RegionID none] ++
                [.getObject (config.GetS3Bucket Getenv) p data none]⟩) := hg
        simp only [StoreStockDataFromS3, hg', hu, StoreDataForDynamo_conditionalCloud, recordsOf, ho,
          List.foldl_cons]
        exact hL _
      · refine ⟨some e, fun r => ?_⟩
        simp only [StoreStockDataFromS3, GetFileDataFromS3, sessionNewSession, s3GetObject,
          conditionalCloud, ho, hu, recordsOf, List.foldl_nil, and_self]
    · refine ⟨some e, fun r => ?_⟩
      simp only [StoreStockDataFromS3, GetFileDataFromS3, sessionNewSession, s3GetObject,
        conditionalCloud, ho, recordsOf, List.foldl_nil, and_self]

/-- In the concrete world a run without error has put the record of every path. -/
theorem conditionalCloud_run_ok
    (holds : GoString → Option (List (GoString × AttributeValue)) → Bool)
    (Getenv : GoString → GoString) (clock : Nat → Time)
    (objects : GoString → GoString → Bytes × Option GoError) (paths : List GoString) :
    ∀ r : Run Cloud,
      (StoreStockDataFromS3 (conditionalCloud holds Getenv clock objects) paths r).1 = none →
      ∀ p ∈ paths, recordOf Getenv (objects (config.GetS3Bucket Getenv) p).1 ∈
        recordsOf Getenv objects paths := by
  induction paths with
  | nil => intro r _ p hp; cases hp
  | cons q ps ih =>
    intro r h p hp
    rcases ho : objects (config.GetS3Bucket Getenv) q with ⟨data, _ | e⟩
    · rcases hu : Unmarshal data {} with ⟨result, _ | e⟩
      · have hg : GetFileDataFromS3 (conditionalCloud holds Getenv clock objects)
            (config.GetS3Bucket (conditionalCloud holds Getenv clock objects).Getenv) q r =
            ((data, none), ⟨r.world, r.log ++ [.newSession ApNortheast1RegionID none] ++
                [.getObject (config.GetS3Bucket Getenv) q data none]⟩) := by
          show GetFileDataFromS3 (conditionalCloud holds Getenv clock objects)
            (config.GetS3Bucket Getenv) q r = _
          simp only [GetFileDataFromS3, sessionNewSession, s3GetObject, conditionalCloud, ho]
        simp only [StoreStockDataFromS3, hg, hu, StoreDataForDynamo_conditionalCloud] at h
        simp only [recordsOf, ho, hu, List.mem_cons]
        rcases List.mem_cons.1 hp with rfl | hp
        · left
          simp only [recordOf, ho, hu, StoreDataForDynamo.param, config.GetDatabaseName]
        · right
          exact ih _ h p hp
      · exfalso
        simp [StoreStockDataFromS3, GetFileDataFromS3, sessionNewSession, s3GetObject,
          conditionalCloud, ho, hu] at h
    · exfalso
      simp [StoreStockDataFromS3, GetFileDataFromS3, sessionNewSession, s3GetObject,
        conditionalCloud, ho] at h

/-- C8.  In a world whose DynamoDB is a store keyed by `date` that evaluates the
condition of a put (by any `holds`), `StoreDataForDynamo` issues one put, without
a condition, of the item `date`, `body`, and returns no error.  After
`StoreDataForDynamo` for `(data1, createdAt)` and then for `(data2, createdAt)`
the table holds exactly one item for `createdAt`, and its body is `data2`.
Running `StoreStockDataFromS3` a second time over the same paths and the same
objects returns what the first run returned and leaves the store as the first run
left it; after a run without error every path's `created_at` is the key of
exactly one item. -/
theorem StoreDataForDynamo_overwrites
    (holds : GoString → Option (List (GoString × AttributeValue)) → Bool)
    (Getenv : GoString → GoString) (clock : Nat → Time)
    (objects : GoString → GoString → Bytes × Option GoError) (paths : List GoString)
    (r : Run Cloud) (createdAt : GoString) (data1 data2 : Bytes) (body1 body2 : List Ticker) :
    (∃ input : PutItemInput,
        (StoreDataForDynamo (conditionalCloud holds Getenv clock objects) data1
          { CreatedAt := createdAt, Body := body1 } r).2.log =
          r.log ++ [.newSession ApNortheast1RegionID none, .putItem input none] ∧
        input.ConditionExpression = none ∧
        input.TableName = Getenv (str "DATABASE_NAME") ∧
        input.Item = [(str "date", { S := createdAt }), (str "body", { S := data1 })]) ∧
      (StoreDataForDynamo (conditionalCloud holds Getenv clock objects) data1
        { CreatedAt := createdAt, Body := body1 } r).1 = none ∧
      (StoreDataForDynamo (conditionalCloud holds Getenv clock objects) data2
        { CreatedAt := createdAt, Body := body2 }
        (StoreDataForDynamo (conditionalCloud holds Getenv clock objects) data1
          { CreatedAt := createdAt, Body := body1 } r).2).1 = none ∧
      Store.get
        (StoreDataForDynamo (conditionalCloud holds Getenv clock objects) data2
          { CreatedAt := createdAt, Body := body2 }
          (StoreDataForDynamo (conditionalCloud holds Getenv clock objects) data1
            { CreatedAt := createdAt, Body := body1 } r).2).2.world.store
        (Getenv (str "DATABASE_NAME")) createdAt =
        [[(str "date", { S := createdAt }), (str "body", { S := data2 })]] ∧
      (StoreStockDataFromS3 (conditionalCloud holds Getenv clock objects) paths
          (StoreStockDataFromS3 (conditionalCloud holds Getenv clock objects) paths r).2).1 =
        (StoreStockDataFromS3 (conditionalCloud holds Getenv clock objects) paths r).1 ∧
      (StoreStockDataFromS3 (conditionalCloud holds Getenv clock objects) paths
          (StoreStockDataFromS3 (conditionalCloud holds Getenv clock objects) paths r).2).2.world.store =
        (StoreStockDataFromS3 (conditionalCloud holds Getenv clock objects) paths r).2.world.store ∧
      ((StoreStockDataFromS3 (conditionalCloud holds Getenv clock objects) paths r).1 = none →
        ∀ p ∈ paths,
          (Store.get (StoreStockDataFromS3 (conditionalCloud holds Getenv clock objects) paths
              r).2.world.store (Getenv (str "DATABASE_NAME"))
            (Unmarshal (objects (config.GetS3Bucket Getenv) p).1 {}).1.CreatedAt).length = 1) := by
  have hk : ∀ data : Bytes, attr [(str "date", ({ S := createdAt } : AttributeValue)),
      (str "body", { S := data })] (str "date") = some createdAt := by
    intro data; simp [attr, List.lookup]
  obtain ⟨err, hrun⟩ := conditionalCloud_run holds Getenv clock objects paths
  refine ⟨⟨StoreDataForDynamo.param Getenv data1 { CreatedAt := createdAt, Body := body1 }, ?_,
    rfl, rfl, rfl⟩, ?_, ?_, ?_, ?_, ?_, ?_⟩
  · rw [StoreDataForDynamo_conditionalCloud]
    simp
  · rw [StoreDataForDynamo_conditionalCloud]
  · rw [StoreDataForDynamo_conditionalCloud]
  · rw [StoreDataForDynamo_conditionalCloud, StoreDataForDynamo_conditionalCloud]
    simp only
    rw [Store.get_put, if_pos]
    · rfl
    · simp [StoreDataForDynamo.param, config.GetDatabaseName, hk]
  · rw [(hrun _).1, (hrun r).1]
  · rw [(hrun _).2, (hrun r).2, Store.foldl_put_twice]
  · intro h p hp
    rw [(hrun r).2]
    have hm := conditionalCloud_run_ok holds Getenv clock objects paths r h p hp
    exact Store.get_foldl_put_mem _ _ _ _ hm rfl (attr_recordOf Getenv _).1 _

/-- C8 with a DynamoDB that refuses every conditional put, on the specification's
payload put twice: one item under its `created_at`, with the payload as body. -/
theorem StoreDataForDynamo_overwrites_witness :
    Store.get
        (StoreDataForDynamo (conditionalCloud neverHolds noEnv (fun _ => Time.Date 2024 5 15 0 0 0 0)
            sampleObjects) samplePayload { CreatedAt := str "2024-05-01T00:00:00Z", Body := [] }
          (StoreDataForDynamo (conditionalCloud neverHolds noEnv
              (fun _ => Time.Date 2024 5 15 0 0 0 0) sampleObjects) (str "old")
            { CreatedAt := str "2024-05-01T00:00:00Z", Body := [] } Run.start).2).2.world.store
        [] (str "2024-05-01T00:00:00Z") =
      [[(str "date", { S := str "2024-05-01T00:00:00Z" }), (str "body", { S := samplePayload })]] :=
  (StoreDataForDynamo_overwrites neverHolds noEnv (fun _ => Time.Date 2024 5 15 0 0 0 0)
    sampleObjects [] Run.start (str "2024-05-01T00:00:00Z") (str "old") samplePayload [] []).2.2.2.1

/-! ## Handler -/

/-- With the flag set, the one date `Handler` builds has the year of the first
clock reading and the month of the second. -/
theorem Handler_targetDate_flag_set {W : Type} (O : Outside W) (r : Run W)
    (h : config.OnlyThisMonth O.Getenv = true) :
    (Handler.targetDate O r).1 =
      [{ Year := (O.Now r.world).1.Year, Month := (O.Now (O.Now r.world).2).1.Month }] := by
  simp [Handler.targetDate, timeNow, h]

/-- C4 fails on the code when the year changes between the two calls of
`time.Now()` in `Handler`.  With the flag set, a first reading of
2021-12-31 23:59:59.999999999 and a second of 2022-01-01 00:00:00, the date built
is (2021, 1), the month of neither reading, and the path fetched is
`data/2021/01.json`. -/
theorem Handler_targetDate_across_new_year :
    (Handler.targetDate (cloud onlyThisMonthEnv newYearClock noObjects) Run.start).1 =
        [⟨2021, 1⟩] ∧
      (newYearClock 0).Year = 2021 ∧ (newYearClock 0).Month = 12 ∧
      (newYearClock 1).Year = 2022 ∧ (newYearClock 1).Month = 1 ∧
      (Handler (cloud onlyThisMonthEnv newYearClock noObjects) Run.start).map
        (fun res => fetches res.2.log) = some [str "data/2021/01.json"] := by
  decide

/-- C10.  `config.OnlyThisMonth` is true exactly when `ONLY_THIS_MONTH` is one of
`1`, `t`, `T`, `TRUE`, `true`, `True`; for any other value, among them the unset
or empty one and `yes`, it is false, and `Handler` then takes its dates from
`GetTargetDateList`, the months since June 2021, instead of the current month. -/
theorem OnlyThisMonth_spec {W : Type} (O : Outside W) (r : Run W) :
    (config.OnlyThisMonth O.Getenv = true ↔ O.Getenv (str "ONLY_THIS_MONTH") ∈ trueSpellings) ∧
      (config.OnlyThisMonth O.Getenv = false ↔ O.Getenv (str "ONLY_THIS_MONTH") ∉ trueSpellings) ∧
      config.OnlyThisMonth noEnv = false ∧
      config.OnlyThisMonth (fun _ => str "yes") = false ∧
      Handler.targetDate O r =
        (if O.Getenv (str "ONLY_THIS_MONTH") ∈ trueSpellings then
          ([{ Year := (O.Now r.world).1.Year, Month := (O.Now (O.Now r.world).2).1.Month }],
            (timeNow O (timeNow O r).2).2)
        else GetTargetDateList O (timeNow O (timeNow O r).2).2) ∧
      (O.Getenv (str "ONLY_THIS_MONTH") ∉ trueSpellings →
        (Handler.targetDate O r).1 =
          monthsFrom epochIndex
            (monthsBefore (O.Now (O.Now (O.Now r.world).2).2).1 epochIndex)) := by
  have h1 : config.OnlyThisMonth O.Getenv = true ↔
      O.Getenv (str "ONLY_THIS_MONTH") ∈ trueSpellings := by
    simp only [config.OnlyThisMonth, ParseBool, trueSpellings, List.mem_cons, List.mem_singleton,
      List.not_mem_nil, or_false]
    split_ifs with ha hb <;> simp [ha]
  have h2 : config.OnlyThisMonth O.Getenv = false ↔
      O.Getenv (str "ONLY_THIS_MONTH") ∉ trueSpellings := by
    rw [← h1]; simp
  have h3 : Handler.targetDate O r =
      (if O.Getenv (str "ONLY_THIS_MONTH") ∈ trueSpellings then
        ([{ Year := (O.Now r.world).1.Year, Month := (O.Now (O.Now r.world).2).1.Month }],
          (timeNow O (timeNow O r).2).2)
      else GetTargetDateList O (timeNow O (timeNow O r).2).2) := by
    by_cases h : O.Getenv (str "ONLY_THIS_MONTH") ∈ trueSpellings
    · rw [if_pos h]
      simp [Handler.targetDate, timeNow, h1.2 h]
    · rw [if_neg h]
      simp [Handler.targetDate, timeNow, h2.2 h]
  refine ⟨h1, h2, by decide, by decide, h3, fun h => ?_⟩
  rw [h3, if_neg h, GetTargetDateList_eq]
  rfl

end StockMonthlyData
